import Mathlib

set_option linter.unusedVariables false

/-!
Verification of the SPIR-V disassembler core (`spirv_disassemble.cpp`).

Each C++ fragment that a claim depends on is embedded shallowly as an
executable Lean definition; the theorems below settle the claims against
those definitions.
-/

namespace SpirVDis

/-- Opcode tags for the instructions handled by the embedded fragments.
`OpOther` stands for any further value-producing opcode (the math opcodes
etc.), `OpUnknown` is the dummy opcode `spv::OpUnknown = (Op)~0U`. -/
inductive SPVOp where
  | OpStore
  | OpLoad
  | OpAccessChain
  | OpSelect
  | OpCompositeConstruct
  | OpCompositeExtract
  | OpCompositeInsert
  | OpFunctionCall
  | OpVariable
  | OpConstant
  | OpLabel
  | OpBranch
  | OpBranchConditional
  | OpReturn
  | OpReturnValue
  | OpSelectionMerge
  | OpLoopMerge
  | OpUnknown
  | OpOther (n : Nat)
deriving DecidableEq, Repr

/-!
## The redundant branch/label sweep (`SPVModule::Disassemble`, lines 1836-1883)

The sweep walks the per-function emit list `funcops` with an index loop
`for(size_t l=0; l < funcops.size()-1;)`, erasing `OpBranch L; OpLabel L`
pairs.  The sweep only ever reads an element's opcode, its `id` and its
`flow->targets`, so the emit-list elements are embedded as that projection
of `SPVInstruction`.
-/

/-- Projection of an `SPVInstruction` to the fields read by the sweep:
opcode, result id, and the flow-control target list (`some` iff the
instruction has a non-null `flow` payload). -/
structure FuncOp where
  opcode : SPVOp
  id : Nat := 0
  flowTargets : Option (List Nat) := none
deriving DecidableEq, Repr

/-- `funcops[l]->flow->targets[0]` for a branch instruction. -/
def FuncOp.target0 (x : FuncOp) : Nat :=
  (x.flowTargets.getD []).getD 0 0

/-- Placeholder element used for the (never taken, see `sweepFromF`)
out-of-range reads of the Lean embedding. -/
def nopOp : FuncOp := { opcode := SPVOp.OpOther 0 }

/-- The `refd` scan of the sweep: `for(size_t b=0; b < funcops.size(); b++)`,
skipping `b == l` (the branch under inspection), looking for `label` among
the flow targets of any other instruction. -/
def labelRefd (funcops : List FuncOp) (l : Nat) (label : Nat) : Bool :=
  (List.range funcops.length).any fun b =>
    if l = b then false
    else
      match (funcops.getD b nopOp).flowTargets with
      | some ts => ts.contains label
      | none => false

/-- The adjacent-pair test of the sweep:
`funcops[l]->opcode == OpBranch && funcops[l+1]->opcode == OpLabel &&
funcops[l]->flow->targets[0] == funcops[l+1]->id`. -/
def pairMatchB (x y : FuncOp) : Bool :=
  x.opcode = SPVOp.OpBranch && y.opcode = SPVOp.OpLabel && x.target0 = y.id

/-- One pass of the redundant branch/label loop, fuelled (the fuel is spent
one unit per iteration; `sweep` supplies enough for the whole loop).

The C++ loop bound is `l < funcops.size()-1` over `size_t`: when the vector
is empty the bound underflows to `2^64-1`, the condition holds, and
`funcops[l]` is read out of bounds.  That out-of-bounds read is modelled as
an `.error ()` result. -/
def sweepFromF : Nat → Nat → List FuncOp → Except Unit (List FuncOp)
  | 0, _, _ => Except.error ()
  | fuel+1, l, funcops =>
    if funcops.length = 0 then
      -- size_t underflow: `funcops.size()-1` wraps around and `funcops[l]`
      -- is an out-of-bounds access
      Except.error ()
    else if l + 1 < funcops.length then
      let x := funcops.getD l nopOp
      let y := funcops.getD (l+1) nopOp
      if pairMatchB x y then
        if labelRefd funcops l y.id then
          -- "if it is refd, we can at least remove the goto"
          sweepFromF fuel l (funcops.eraseIdx l)
        else
          -- remove both the branch and the label
          sweepFromF fuel l ((funcops.eraseIdx l).eraseIdx l)
      else
        sweepFromF fuel (l+1) funcops
    else
      Except.ok funcops

/-- The redundant branch/label sweep over a function's emit list. -/
def sweep (funcops : List FuncOp) : Except Unit (List FuncOp) :=
  sweepFromF (funcops.length + 1) 0 funcops

/-- The per-element predicate of the `refd` scan: does this instruction's
flow-target list mention `L`? -/
def refP (o : FuncOp) (L : Nat) : Bool :=
  match o.flowTargets with
  | some ts => ts.contains L
  | none => false

/-- `L` is a flow-control target somewhere in `ops`. -/
def refsLabel (ops : List FuncOp) (L : Nat) : Bool :=
  ops.any (refP · L)

/-- No adjacent `OpBranch L; OpLabel L` pair occurs in `ops`. -/
def noAdjPairB : List FuncOp → Bool
  | [] => true
  | [_] => true
  | x :: y :: rest => (!(pairMatchB x y)) && noAdjPairB (y :: rest)

/-- A branch emit-list element as the structural pass produces it
(`OpBranch` stores a single target and no result id). -/
def brOp (L : Nat) : FuncOp := { opcode := SPVOp.OpBranch, flowTargets := some [L] }

/-- A label emit-list element (`OpLabel` has a result id and no flow payload). -/
def lbOp (L : Nat) : FuncOp := { opcode := SPVOp.OpLabel, id := L }

/-! ### Helper lemmas for the sweep -/

theorem getLast?_eraseIdx {α : Type} (xs : List α) (i : Nat) (h : i + 1 < xs.length) :
    (xs.eraseIdx i).getLast? = xs.getLast? := by
  rw [List.getLast?_eq_getElem?, List.getLast?_eq_getElem?, List.getElem?_eraseIdx,
    List.length_eraseIdx]
  rw [if_pos (by omega : i < xs.length)]
  rw [if_neg (by omega : ¬ xs.length - 1 - 1 < i)]
  congr 1
  omega

theorem eraseIdx_length_append {α : Type} (pre rest : List α) (x : α) :
    (pre ++ x :: rest).eraseIdx pre.length = pre ++ rest := by
  induction pre with
  | nil => rfl
  | cons a as ih => simp [List.eraseIdx, ih]

theorem getD_append_self {α : Type} (pre rest : List α) (x d : α) :
    (pre ++ x :: rest).getD pre.length d = x := by
  rw [List.getD_eq_getElem?_getD, List.getElem?_append]
  simp

theorem getD_append_succ {α : Type} (pre rest : List α) (x y d : α) :
    (pre ++ x :: y :: rest).getD (pre.length + 1) d = y := by
  rw [List.getD_eq_getElem?_getD, List.getElem?_append]
  rw [if_neg (by omega)]
  have h1 : pre.length + 1 - pre.length = 1 := by omega
  rw [h1]
  simp

theorem noAdjPairB_pairs (ops : List FuncOp) (h : noAdjPairB ops = true) :
    ∀ i x y, ops[i]? = some x → ops[i+1]? = some y → pairMatchB x y = false := by
  induction ops with
  | nil => intro i x y hx; simp at hx
  | cons a t ih =>
    cases t with
    | nil =>
      intro i x y hx hy
      match i, hy with
      | 0, hy => simp at hy
      | i+1, hy => simp at hy
    | cons b rest =>
      rw [noAdjPairB] at h
      have h1 : pairMatchB a b = false := by
        cases hp : pairMatchB a b <;> simp [hp] at h ⊢
      have h2 : noAdjPairB (b :: rest) = true := by
        cases hp : noAdjPairB (b :: rest) <;> simp [hp] at h ⊢
      intro i x y hx hy
      match i, hx, hy with
      | 0, hx, hy =>
        simp at hx hy
        subst hx
        rw [show y = b from (by simpa using hy.symm)]
        exact h1
      | i+1, hx, hy =>
        exact ih h2 i x y (by simpa using hx) (by simpa using hy)

/-- The `refd` scan over the full list, skipping position `l`, equals the scan
over the list with position `l` erased. -/
theorem labelRefd_eq (ops : List FuncOp) (l L : Nat) (h : l < ops.length) :
    labelRefd ops l L = refsLabel (ops.eraseIdx l) L := by
  rw [Bool.eq_iff_iff]
  unfold labelRefd refsLabel
  rw [List.any_eq_true, List.any_eq_true]
  constructor
  · rintro ⟨b, hb, hP⟩
    rw [List.mem_range] at hb
    by_cases hbl : l = b
    · rw [if_pos hbl] at hP; exact absurd hP (by simp)
    · rw [if_neg hbl] at hP
      have hbsome : ops[b]? = some (ops.getD b nopOp) := by
        rw [List.getD_eq_getElem?_getD, List.getElem?_eq_getElem hb]
        rfl
      rcases Nat.lt_or_ge b l with hlt | hge
      · refine ⟨ops.getD b nopOp, ?_, hP⟩
        rw [List.mem_iff_getElem?]
        exact ⟨b, by rw [List.getElem?_eraseIdx, if_pos hlt]; exact hbsome⟩
      · have hbl' : l < b := by omega
        refine ⟨ops.getD b nopOp, ?_, hP⟩
        rw [List.mem_iff_getElem?]
        refine ⟨b - 1, ?_⟩
        rw [List.getElem?_eraseIdx, if_neg (by omega)]
        have : b - 1 + 1 = b := by omega
        rw [this]
        exact hbsome
  · rintro ⟨o, ho, hP⟩
    rw [List.mem_iff_getElem?] at ho
    rcases ho with ⟨j, hj⟩
    rw [List.getElem?_eraseIdx] at hj
    by_cases hjl : j < l
    · refine ⟨j, ?_, ?_⟩
      · rw [List.mem_range]
        omega
      · rw [if_neg (by omega : ¬ l = j)]
        rw [if_pos hjl] at hj
        have : ops.getD j nopOp = o := by
          rw [List.getD_eq_getElem?_getD, hj]; rfl
        rw [this]; exact hP
    · rw [if_neg hjl] at hj
      have hjlen : j + 1 < ops.length := by
        by_contra hc
        rw [List.getElem?_eq_none (by omega)] at hj
        exact Option.noConfusion hj
      refine ⟨j + 1, ?_, ?_⟩
      · rw [List.mem_range]; omega
      · rw [if_neg (by omega : ¬ l = j + 1)]
        have : ops.getD (j+1) nopOp = o := by
          rw [List.getD_eq_getElem?_getD, hj]; rfl
        rw [this]; exact hP

/-- If no pair from the cursor onwards matches, the sweep leaves the list
unchanged. -/
theorem sweepFromF_noMatch (fuel : Nat) : ∀ (l : Nat) (ops : List FuncOp),
    ops ≠ [] →
    (∀ i, l ≤ i → ∀ x y, ops[i]? = some x → ops[i+1]? = some y → pairMatchB x y = false) →
    ops.length - l < fuel →
    sweepFromF fuel l ops = Except.ok ops := by
  induction fuel with
  | zero => intro l ops _ _ hf; omega
  | succ f ih =>
    intro l ops hne hnm hf
    rw [sweepFromF]
    rw [if_neg (by simpa [List.length_eq_zero] using hne)]
    by_cases hl : l + 1 < ops.length
    · rw [if_pos hl]
      have hx : ops[l]? = some (ops.getD l nopOp) := by
        rw [List.getD_eq_getElem?_getD, List.getElem?_eq_getElem (by omega)]; rfl
      have hy : ops[l+1]? = some (ops.getD (l+1) nopOp) := by
        rw [List.getD_eq_getElem?_getD, List.getElem?_eq_getElem hl]; rfl
      rw [if_neg (by
        rw [hnm l (Nat.le_refl l) _ _ hx hy]
        exact Bool.false_ne_true)]
      exact ih (l+1) ops hne (fun i hi => hnm i (by omega)) (by omega)
    · rw [if_neg hl]

/-- Advancing the cursor `d` positions across a match-free region. -/
theorem sweepFromF_walk (d : Nat) : ∀ (f l : Nat) (ops : List FuncOp),
    (∀ i, l ≤ i → i < l + d → ∀ x y, ops[i]? = some x → ops[i+1]? = some y →
      pairMatchB x y = false) →
    l + d < ops.length →
    sweepFromF (f + d) l ops = sweepFromF f (l + d) ops := by
  induction d with
  | zero => intro f l ops _ _; rfl
  | succ d ih =>
    intro f l ops hnm hlen
    have hstep : sweepFromF (f + d + 1) l ops = sweepFromF (f + d) (l + 1) ops := by
      rw [sweepFromF]
      rw [if_neg (by omega)]
      rw [if_pos (by omega : l + 1 < ops.length)]
      have hx : ops[l]? = some (ops.getD l nopOp) := by
        rw [List.getD_eq_getElem?_getD, List.getElem?_eq_getElem (by omega)]; rfl
      have hy : ops[l+1]? = some (ops.getD (l+1) nopOp) := by
        rw [List.getD_eq_getElem?_getD, List.getElem?_eq_getElem (by omega)]; rfl
      rw [if_neg (by
        rw [hnm l (Nat.le_refl l) (by omega) _ _ hx hy]
        exact Bool.false_ne_true)]
    have harith : f + (d + 1) = f + d + 1 := by omega
    rw [harith, hstep]
    have := ih f (l + 1) ops (fun i hi hi2 => hnm i (by omega) (by omega)) (by omega)
    rw [this]
    congr 1
    omega

/-- Safety of the sweep: every step stays in bounds when the list is nonempty
and does not end with a label. -/
theorem sweepFromF_ok (fuel : Nat) : ∀ (l : Nat) (ops : List FuncOp),
    ops ≠ [] →
    (∀ z, ops.getLast? = some z → z.opcode ≠ SPVOp.OpLabel) →
    ops.length - l < fuel →
    ∃ r, sweepFromF fuel l ops = Except.ok r := by
  induction fuel with
  | zero => intro l ops _ _ hf; omega
  | succ f ih =>
    intro l ops hne hlast hf
    rw [sweepFromF]
    rw [if_neg (by simpa [List.length_eq_zero] using hne)]
    by_cases hl : l + 1 < ops.length
    · rw [if_pos hl]
      by_cases hm : pairMatchB (ops.getD l nopOp) (ops.getD (l+1) nopOp) = true
      · rw [if_pos hm]
        -- the matched element y at position l+1 is a label, hence not the last
        have hyL : (ops.getD (l+1) nopOp).opcode = SPVOp.OpLabel := by
          unfold pairMatchB at hm
          have := (Bool.and_eq_true _ _).mp hm
          have := (Bool.and_eq_true _ _).mp this.1
          simpa using this.2
        have hy : ops[l+1]? = some (ops.getD (l+1) nopOp) := by
          rw [List.getD_eq_getElem?_getD, List.getElem?_eq_getElem hl]; rfl
        have hlast' : l + 2 < ops.length := by
          by_contra hc
          have hl1 : l + 1 = ops.length - 1 := by omega
          have : ops.getLast? = some (ops.getD (l+1) nopOp) := by
            rw [List.getLast?_eq_getElem?, ← hl1]
            exact hy
          exact hlast _ this hyL
        by_cases hr : labelRefd ops l (ops.getD (l+1) nopOp).id = true
        · rw [if_pos hr]
          refine ih l (ops.eraseIdx l) ?_ ?_ ?_
          · have : (ops.eraseIdx l).length = ops.length - 1 := by
              rw [List.length_eraseIdx, if_pos (by omega)]
            intro hc
            rw [hc] at this
            simp at this
            omega
          · intro z hz
            rw [getLast?_eraseIdx ops l hl] at hz
            exact hlast z hz
          · rw [List.length_eraseIdx, if_pos (by omega)]
            omega
        · rw [if_neg hr]
          have hlen1 : (ops.eraseIdx l).length = ops.length - 1 := by
            rw [List.length_eraseIdx, if_pos (by omega)]
          have hlen2 : ((ops.eraseIdx l).eraseIdx l).length = ops.length - 2 := by
            rw [List.length_eraseIdx, if_pos (by omega), hlen1]
            omega
          refine ih l ((ops.eraseIdx l).eraseIdx l) ?_ ?_ ?_
          · intro hc
            rw [hc] at hlen2
            simp at hlen2
            omega
          · intro z hz
            rw [getLast?_eraseIdx _ l (by omega), getLast?_eraseIdx ops l hl] at hz
            exact hlast z hz
          · omega
      · rw [if_neg hm]
        exact ih (l+1) ops hne hlast (by omega)
    · rw [if_neg hl]
      exact ⟨ops, rfl⟩

/-- **C7.** In the redundant-label sweep, an adjacent pair `OpBranch L;
OpLabel L` is removed entirely when no other flow-control instruction of the
function targets `L`; when `L` is referenced elsewhere, only the redundant
branch is removed and the label is kept.  (`pre` and `post` are the rest of
the emit list, themselves containing no adjacent branch/label pairs; `post`
is nonempty, as it is in the disassembler where the function's final
terminator follows.) -/
theorem c7_redundant_pair_sweep (L : Nat) (pre post : List FuncOp)
    (hpre : noAdjPairB pre = true) (hpost : noAdjPairB post = true)
    (hpost_ne : post ≠ []) :
    sweep (pre ++ brOp L :: lbOp L :: post) =
      (if refsLabel (pre ++ post) L then Except.ok (pre ++ lbOp L :: post)
       else Except.ok (pre ++ post)) := by
  set full := pre ++ brOp L :: lbOp L :: post with hfull
  have hlenfull : full.length = pre.length + 2 + post.length := by
    simp [hfull]
    omega
  have hpostlen : 1 ≤ post.length := by
    cases post with
    | nil => exact absurd rfl hpost_ne
    | cons a t => simp
  -- walk the cursor across `pre`
  have hwalk : sweep full = sweepFromF (full.length + 1 - pre.length) pre.length full := by
    unfold sweep
    have harith : full.length + 1 = (full.length + 1 - pre.length) + pre.length := by omega
    rw [harith]
    have := sweepFromF_walk pre.length (full.length + 1 - pre.length) 0 full ?_ (by omega)
    · simpa using this
    · intro i hi0 hid x y hx hy
      rcases Nat.lt_or_ge (i+1) pre.length with hlt | hge
      · -- both elements inside pre
        have hx' : pre[i]? = some x := by
          rw [hfull, List.getElem?_append, if_pos (by omega)] at hx
          exact hx
        have hy' : pre[i+1]? = some y := by
          rw [hfull, List.getElem?_append, if_pos hlt] at hy
          exact hy
        exact noAdjPairB_pairs pre hpre i x y hx' hy'
      · -- i+1 = pre.length : the successor is the branch, which is not a label
        have hieq : i + 1 = pre.length := by simp at hid; omega
        have hy' : y = brOp L := by
          rw [hfull, hieq] at hy
          have : (pre ++ brOp L :: lbOp L :: post)[pre.length]? = some (brOp L) := by
            rw [List.getElem?_append, if_neg (by omega)]
            simp
          rw [this] at hy
          exact (Option.some_inj.mp hy).symm
        unfold pairMatchB
        rw [hy']
        simp [brOp, lbOp]
  rw [hwalk]
  -- one step at the pair
  have hxval : full.getD pre.length nopOp = brOp L := getD_append_self pre _ _ nopOp
  have hyval : full.getD (pre.length + 1) nopOp = lbOp L := getD_append_succ pre post _ _ nopOp
  have hfuel : full.length + 1 - pre.length = (post.length + 2) + 1 := by omega
  rw [hfuel, sweepFromF]
  rw [if_neg (by omega)]
  rw [if_pos (by omega : pre.length + 1 < full.length)]
  rw [hxval, hyval]
  rw [if_pos (by simp [pairMatchB, brOp, lbOp, FuncOp.target0])]
  have herase1 : full.eraseIdx pre.length = pre ++ lbOp L :: post := by
    rw [hfull]
    exact eraseIdx_length_append pre _ _
  have herase2 : (full.eraseIdx pre.length).eraseIdx pre.length = pre ++ post := by
    rw [herase1]
    exact eraseIdx_length_append pre _ _
  have hrefd : labelRefd full pre.length (lbOp L).id = refsLabel (pre ++ post) L := by
    rw [labelRefd_eq full pre.length _ (by omega), herase1]
    show refsLabel (pre ++ lbOp L :: post) (lbOp L).id = refsLabel (pre ++ post) L
    unfold refsLabel
    rw [List.any_append, List.any_append]
    have : (lbOp L :: post).any (refP · (lbOp L).id) = post.any (refP · L) := by
      rw [List.any_cons]
      have : refP (lbOp L) (lbOp L).id = false := by rfl
      rw [this]
      simp [lbOp]
    rw [this]
    rfl
  rw [hrefd]
  by_cases hr : refsLabel (pre ++ post) L = true
  · rw [if_pos hr, if_pos hr, herase1]
    refine sweepFromF_noMatch _ pre.length _ (by simp) ?_ ?_
    · -- no matching pair from the cursor onwards: position pre.length holds the
      -- label (not a branch), later pairs lie within post
      intro i hi x y hx hy
      rcases Nat.eq_or_lt_of_le hi with heq | hlt
      · have hx' : x = lbOp L := by
          rw [← heq, List.getElem?_append, if_neg (by omega)] at hx
          have h0 : pre.length - pre.length = 0 := by omega
          rw [h0] at hx
          simp only [List.getElem?_cons_zero] at hx
          exact (Option.some_inj.mp hx).symm
        unfold pairMatchB
        rw [hx']
        simp [lbOp]
      · have hx' : post[i - pre.length - 1]? = some x := by
          rw [List.getElem?_append, if_neg (by omega)] at hx
          have : i - pre.length = (i - pre.length - 1) + 1 := by omega
          rw [this] at hx
          simpa using hx
        have hy' : post[i - pre.length]? = some y := by
          rw [List.getElem?_append, if_neg (by omega)] at hy
          have : i + 1 - pre.length = (i - pre.length - 1) + 1 + 1 := by omega
          rw [this] at hy
          have h2 : i - pre.length = (i - pre.length - 1) + 1 := by omega
          rw [h2]
          simpa using hy
        have h3 : i - pre.length = (i - pre.length - 1) + 1 := by omega
        rw [h3] at hy'
        exact noAdjPairB_pairs post hpost _ x y hx' hy'
    · simp only [List.length_append, List.length_cons]
      omega
  · rw [if_neg hr, if_neg hr, herase2]
    refine sweepFromF_noMatch _ pre.length _ ?_ ?_ ?_
    · intro hc
      rcases List.append_eq_nil.mp hc with ⟨h1, h2⟩
      exact hpost_ne h2
    · intro i hi x y hx hy
      have hx' : post[i - pre.length]? = some x := by
        rw [List.getElem?_append, if_neg (by omega)] at hx
        exact hx
      have hy' : post[i - pre.length + 1]? = some y := by
        rw [List.getElem?_append, if_neg (by omega)] at hy
        have : i + 1 - pre.length = i - pre.length + 1 := by omega
        rw [this] at hy
        exact hy
      exact noAdjPairB_pairs post hpost _ x y hx' hy'
    · simp only [List.length_append]
      omega

/-- An `OpReturn` emit-list element (terminators carry a flow payload with an
empty target list). -/
def retOp : FuncOp := { opcode := SPVOp.OpReturn, flowTargets := some [] }

/-- Witness for C7 at a concrete emit list: the pair `Branch 5; Label 5` is
erased entirely because nothing else references label 5. -/
theorem c7_sweep_witness :
    sweep ([lbOp 3] ++ brOp 5 :: lbOp 5 :: [retOp]) =
      Except.ok ([lbOp 3] ++ [retOp]) := by
  have h := c7_redundant_pair_sweep 5 [lbOp 3] [retOp] (by decide) (by decide)
      (by decide)
  rw [h]
  rfl

/-- **C10 (counterexample).** A nonempty emit list on which the sweep still
runs out of bounds: the function's first block ends in `OpBranch 1` and is
followed by a labelled but unterminated block, so the emit list is exactly
`[Branch 1, Label 1]`; the sweep erases both elements, the unsigned bound
`funcops.size()-1` then underflows, and `funcops[0]` is read out of bounds. -/
theorem c10_nonempty_oob :
    ([brOp 1, lbOp 1] ≠ ([] : List FuncOp)) ∧
    sweep [brOp 1, lbOp 1] = Except.error () := by
  constructor
  · intro h
    exact List.noConfusion h
  · rfl

/-- **C10 (amended).** All emit-list accesses of the redundant branch/label
sweep are in bounds provided the list is nonempty *and its last element is
not an `OpLabel`* (as holds whenever the function's final block is
terminated, since the terminator is pushed last); the nonemptiness
precondition is required because the empty list makes the unsigned loop bound
`funcops.size()-1` underflow and the first access is already out of
bounds. -/
theorem c10_sweep_in_bounds :
    (∀ funcops : List FuncOp, ∀ z, funcops.getLast? = some z →
        z.opcode ≠ SPVOp.OpLabel → ∃ r, sweep funcops = Except.ok r) ∧
    sweep [] = Except.error () := by
  constructor
  · intro funcops z hz hop
    have hne : funcops ≠ [] := by
      intro hc
      rw [hc] at hz
      exact Option.noConfusion hz
    refine sweepFromF_ok _ 0 funcops hne ?_ (by omega)
    intro w hw
    rw [hw] at hz
    rw [Option.some_inj.mp hz]
    exact hop
  · rfl

/-- Witness for C10 on a concrete emit list ending in a terminator. -/
theorem c10_witness :
    ∃ r, sweep [brOp 1, lbOp 1, retOp] = Except.ok r := by
  refine c10_sweep_in_bounds.1 _ retOp rfl ?_
  intro h
  exact SPVOp.noConfusion h

/-!
## The `OpVectorShuffle` renderer (`SPVInstruction::Disassemble`, lines 992-1056)

The case reads: the result type's name, the instruction's id name, the
vector size of `arguments[0]`'s type, the literal selector list, and the
rendered string of argument 0 (`GetArg(ids, 0, arg)` — the source always
renders argument 0, even for the segments of the second source vector).
Those are passed in as parameters here.
-/

/-- The `maxShuffle` computation:
```
uint32_t maxShuffle = 0;
for(size_t i=0; i < op->literals.size(); i++) {
  uint32_t s = op->literals[i];
  if(s > vec1type->vectorSize) s -= vec1type->vectorSize;
  maxShuffle = RDCMAX(maxShuffle, op->literals[i]);
}
```
(note the source maxes over the raw literal `op->literals[i]`, not the
reduced `s`). -/
def shuffleMax (vec1Size : Nat) (literals : List Nat) : Nat :=
  literals.foldl (fun maxShuffle lit =>
    let s := if lit > vec1Size then lit - vec1Size else lit
    max maxShuffle lit) 0

/-- The `char swizzle[] = "xyzw_"` table. -/
def swizzleChars : List Char := ['x', 'y', 'z', 'w', '_']

/-- One iteration of the swizzle-building loop.  The accumulator is
`(ret, lastvec, i)`.  The default `?` of the character lookup is never used:
inside the guarded body every reduced selector is at most `4`. -/
def shuffleStep (arg0Str : String) (vec1Size : Nat) (acc : String × Int × Nat)
    (lit : Nat) : String × Int × Nat :=
  let ret := acc.1
  let lastvec := acc.2.1
  let i := acc.2.2
  let sv : Nat × Int :=
    if lit = 0xFFFFFFFF then
      -- undefined component
      (4, 0)
    else if lit > vec1Size then (lit - vec1Size, 1)
    else (lit, 0)
  let s := sv.1
  let vec := sv.2
  let rl : String × Int :=
    if vec ≠ lastvec then
      (((if i > 0 then ret ++ ", " else ret) ++ arg0Str) ++ ".", vec)
    else (ret, lastvec)
  (rl.1.push (swizzleChars.getD s '?'), rl.2, i + 1)

/-- The `OpVectorShuffle` case of `SPVInstruction::Disassemble`. -/
def disassembleVectorShuffle (inlineOp : Bool) (resultTypeName idName arg0Str : String)
    (vec1Size : Nat) (literals : List Nat) : String :=
  let ret := if inlineOp then "" else resultTypeName ++ " " ++ idName ++ " = "
  let maxShuffle := shuffleMax vec1Size literals
  let ret := ret ++ resultTypeName ++ "("
  let ret :=
    if maxShuffle < 4 then
      ret ++ (literals.foldl (shuffleStep arg0Str vec1Size) ("", (-1 : Int), 0)).1
    else ret
  ret ++ ")"

/-- **C6 (code evaluated at the failing input).** Shuffling two 4-component
vectors with selectors `(0,1,4,5)` renders as `float4()`, not
`float4(a.xy, b.xy)`: `maxShuffle` is computed from the *unreduced* selector
words, so it is `5` and the swizzle-building body (`maxShuffle < 4`) is
skipped entirely. -/
theorem c6_vector_shuffle_eval :
    disassembleVectorShuffle true "float4" "{20}" "a" 4 [0, 1, 4, 5] = "float4()"
    ∧ shuffleMax 4 [0, 1, 4, 5] = 5 := by
  exact ⟨rfl, rfl⟩

/-!
## The reflection tables (`bindpair::operator<` lines 2332-2346 and
`SPVModule::MakeReflection` lines 2659-2690)
-/

/-- The two `BindpointMap` fields read by the comparator and the fixup loop. -/
structure BindpointMap where
  bindset : Int
  bind : Int
deriving DecidableEq, Repr

/-- A `bindpair<T>` element; `tag` stands for the `bindres` payload
(a `ConstantBlock` or `ShaderResource`), identifying the entry. -/
structure BindPair where
  map : BindpointMap
  tag : Nat
deriving DecidableEq, Repr

/-- `bindpair<T>::operator<`. -/
def bindpairLt (m o : BindpointMap) : Bool :=
  if m.bindset ≠ o.bindset then m.bindset < o.bindset
  else if m.bind = -1 ∧ o.bind = -1 then false -- equal
  else if m.bind = -1 then false               -- -1 not less than anything
  else if o.bind = -1 then true                -- anything less than -1
  else m.bind < o.bind

/-- `std::sort(cblocks.begin(), cblocks.end())` /
`std::sort(resources.begin(), resources.end())`: a sort ascending in
`bindpairLt` (modelled by insertion sort: `std::sort` fixes no particular
order among comparator-equivalent elements, and the theorems below do not
depend on one). -/
def reflectionSortedMaps (l : List BindPair) : List BindPair :=
  List.insertionSort (fun a b => bindpairLt b.map a.map = false) l

/-- The post-sort fixup: "fix up any bind points marked with -1 ... we want
to just be able to index with the bind point without any special casing". -/
def fixupBind (m : BindpointMap) : BindpointMap :=
  if m.bind = -1 then { m with bind := 0 } else m

/-- The emitted table: sorted entries with `-1` bind points rewritten to 0. -/
def reflectionOutput (l : List BindPair) : List BindPair :=
  (reflectionSortedMaps l).map (fun e => { e with map := fixupBind e.map })

theorem bindpairLt_asymm (a b : BindpointMap) :
    bindpairLt a b = true → bindpairLt b a = false := by
  unfold bindpairLt
  split_ifs <;> simp_all <;> omega

theorem bindpairLt_le_trans (a b c : BindpointMap) :
    bindpairLt b a = false → bindpairLt c b = false → bindpairLt c a = false := by
  unfold bindpairLt
  split_ifs <;> simp_all <;> omega

/-- **C8 (counterexample).** An entry with missing binding (`bind = -1`) in
descriptor set 0 is emitted *before* an explicitly bound entry of descriptor
set 1, because the comparator orders by descriptor set first; the `-1`
entries therefore do not trail the whole table, contradicting the claim.
(The comparator forces this order: `bindpairLt ⟨0,-1⟩ ⟨1,0⟩ = true`, so any
correct sort must place the `-1` entry first.)  After the sort, its bind
point is rewritten to 0. -/
theorem c8_minus_one_not_global_trailing :
    reflectionOutput [⟨⟨1, 0⟩, 0⟩, ⟨⟨0, -1⟩, 1⟩] = [⟨⟨0, 0⟩, 1⟩, ⟨⟨1, 0⟩, 0⟩]
    ∧ bindpairLt ⟨0, -1⟩ ⟨1, 0⟩ = true := by
  exact ⟨rfl, rfl⟩

/-- **C8 (amended).** Both reflection tables are emitted sorted by the
`bindpair` comparator — ascending descriptor set and, *within one descriptor
set*, ascending binding with the missing (`-1`) bindings after all explicit
bindings of that set; the output is a permutation of the input, and after
the sort no emitted bind point is still `-1` (each `-1` is rewritten
to 0). -/
theorem c8_sorted_tables (l : List BindPair) :
    (reflectionSortedMaps l).Perm l
    ∧ List.Pairwise (fun a b => bindpairLt b.map a.map = false) (reflectionSortedMaps l)
    ∧ List.Pairwise (fun a b => a.map.bindset = b.map.bindset → a.map.bind = -1 →
        b.map.bind = -1) (reflectionSortedMaps l)
    ∧ (reflectionOutput l).all (fun e => !(e.map.bind = -1)) = true := by
  have hsorted : List.Pairwise (fun a b : BindPair => bindpairLt b.map a.map = false)
      (reflectionSortedMaps l) := by
    haveI : IsTrans BindPair (fun a b : BindPair => bindpairLt b.map a.map = false) :=
      ⟨fun a b c h1 h2 => bindpairLt_le_trans _ _ _ h1 h2⟩
    haveI : IsTotal BindPair (fun a b : BindPair => bindpairLt b.map a.map = false) :=
      ⟨fun a b => by
        by_cases h : bindpairLt b.map a.map = true
        · right
          exact bindpairLt_asymm _ _ h
        · left
          simpa using h⟩
    exact List.sorted_insertionSort _ l
  refine ⟨List.perm_insertionSort _ l, hsorted, ?_, ?_⟩
  · refine hsorted.imp ?_
    intro a b h hset hma
    by_contra hmb
    have hlt : bindpairLt b.map a.map = true := by
      unfold bindpairLt
      rw [if_neg (by simp [hset]), if_neg (by simp [hmb]), if_neg hmb, if_pos hma]
    rw [h] at hlt
    exact Bool.noConfusion hlt
  · rw [List.all_eq_true]
    intro e he
    unfold reflectionOutput at he
    rcases List.mem_map.mp he with ⟨p, hp, hpe⟩
    rw [← hpe]
    unfold fixupBind
    by_cases h : p.map.bind = -1
    · rw [if_pos h]
      simp
    · rw [if_neg h]
      simpa using h

/-!
## `ParseSPIRV` (lines 2693-3690) and `SPVModule::GetByID` (lines 1334-1349)

Only the effects on the module collections matter to C1/C2.  The numeric
opcode table and the constants `spv::MagicNumber`/`spv::Version` come from
the vendored `3rdparty/glslang/SPIRV/spirv.hpp`, which is not part of this
snapshot; the magic number is therefore taken from the format description
(`0x07230203`) and the supported version is a parameter `version`.
-/

/-- An instruction as the parser allocates it (the fields C1/C2 read). -/
structure PInstr where
  opcode : SPVOp
  id : Nat
deriving DecidableEq, Repr

/-- The module collections touched by `ParseSPIRV` and `GetByID`.
`errors` counts the `RDCERR` diagnostics emitted. -/
structure SPVModuleC where
  moduleVersion : Nat := 0
  generator : Nat := 0
  ids : List (Option PInstr) := []
  operations : List PInstr := []
  globals : List Nat := []
  funcs : List Nat := []
  errors : Nat := 0
deriving Repr

/-- `SPVModule::GetByID`: return `ids[id]` when set; otherwise allocate a
dummy instruction with opcode `OpUnknown` bearing `id`, store it in `ids`
and `operations`, and return it.  (The C++ indexes `ids` unchecked; the
embedding reads through `getD`, the claims only concern `id` within
bounds.) -/
def GetByID (m : SPVModuleC) (id : Nat) : SPVModuleC × PInstr :=
  match m.ids.getD id none with
  | some i => (m, i)
  | none =>
    -- RDCWARN("Expected to find ID %u but didn't - returning dummy instruction")
    let op : PInstr := { opcode := SPVOp.OpUnknown, id := id }
    ({ m with operations := m.operations ++ [op], ids := m.ids.set id (some op) }, op)

/-- One decoded instruction record of the body stream.  The packed first
word of each instruction is `count<<16 | opcode` (split by the source via
`spv::WordCountShift`/`spv::OpCodeMask`); which payload word holds the
result id depends on the opcode family (through the numeric opcode values of
the vendored header), so the stream is modelled post-split: `operandIds` are
the ids the case resolves through `GetByID`, `resultId` is the id slot the
case assigns (`module.ids[...] = &op`), and `isGlobalVar`/`isFunc` mark the
cases that push onto `module.globals` (an `OpVariable` outside a function)
and `module.funcs` (an `OpFunction`). -/
structure BodyInstr where
  opcode : SPVOp
  operandIds : List Nat := []
  resultId : Option Nat := none
  isGlobalVar : Bool := false
  isFunc : Bool := false

/-- One iteration of the structural pass: allocate the instruction
(`module.operations.push_back(new SPVInstruction())`), resolve the operand
ids through `GetByID`, record the result id (`module.ids[...] = &op` — a
`List.set`, which never resizes `ids`), and push globals/funcs entries. -/
def parseBodyStep (m0 : SPVModuleC) (w : BodyInstr) : SPVModuleC :=
  let m1 := { m0 with
    operations := m0.operations ++ [{ opcode := w.opcode, id := w.resultId.getD 0 }] }
  let m2 := w.operandIds.foldl (fun m i => (GetByID m i).1) m1
  let m3 := match w.resultId with
    | some rid =>
        { m2 with ids := m2.ids.set rid (some { opcode := w.opcode, id := rid }) }
    | none => m2
  let m4 := if w.isGlobalVar then
      { m3 with globals := m3.globals ++ [w.resultId.getD 0] }
    else m3
  if w.isFunc then { m4 with funcs := m4.funcs ++ [w.resultId.getD 0] } else m4

/-- The two passes over the instruction stream (the annotation pass resolves
ids through `GetByID` and writes name/decoration fields only, so its
collection effects are covered by the same step shape). -/
def parseBody (m : SPVModuleC) (body : List BodyInstr) : SPVModuleC :=
  body.foldl parseBodyStep m

/-- The SPIR-V magic sentinel (format description, §module header). -/
def MagicNumber : Nat := 0x07230203

/-- `ParseSPIRV`: check the header, resize `ids` to the bound word, then run
the passes.  `version` stands for the external constant `spv::Version`. -/
def ParseSPIRV (version : Nat) (spirv : List Nat) (body : List BodyInstr) :
    SPVModuleC :=
  if spirv.getD 0 0 ≠ MagicNumber then
    -- RDCERR("Unrecognised SPIR-V magic number %08x") and return
    { errors := 1 }
  else if spirv.getD 1 0 ≠ version then
    -- module.moduleVersion = spirv[1] was set before this check;
    -- RDCERR("Unsupported SPIR-V version: %08x") and return
    { moduleVersion := spirv.getD 1 0, errors := 1 }
  else
    parseBody { moduleVersion := spirv.getD 1 0,
                generator := spirv.getD 2 0,
                ids := List.replicate (spirv.getD 3 0) none } body

theorem GetByID_ids_length (m : SPVModuleC) (id : Nat) :
    (GetByID m id).1.ids.length = m.ids.length := by
  unfold GetByID
  cases h : m.ids.getD id none with
  | some i => rfl
  | none => simp [List.length_set]

theorem parseBodyStep_ids_length (m : SPVModuleC) (w : BodyInstr) :
    (parseBodyStep m w).ids.length = m.ids.length := by
  unfold parseBodyStep
  have hfold : ∀ (l : List Nat) (m' : SPVModuleC),
      (l.foldl (fun m i => (GetByID m i).1) m').ids.length = m'.ids.length := by
    intro l
    induction l with
    | nil => intro m'; rfl
    | cons a t ih =>
      intro m'
      rw [List.foldl_cons, ih]
      exact GetByID_ids_length m' a
  cases hres : w.resultId with
  | some rid =>
    simp only [hres]
    cases w.isGlobalVar <;> cases w.isFunc <;>
      simp [List.length_set, hfold]
  | none =>
    simp only [hres]
    cases w.isGlobalVar <;> cases w.isFunc <;> simp [hfold]

theorem parseBody_ids_length (body : List BodyInstr) :
    ∀ (m : SPVModuleC), (parseBody m body).ids.length = m.ids.length := by
  induction body with
  | nil => intro m; rfl
  | cons w t ih =>
    intro m
    unfold parseBody at ih ⊢
    rw [List.foldl_cons, ih, parseBodyStep_ids_length]

/-- **C1.** A word buffer whose first word is not `0x07230203`, or whose
version word differs from the supported version, makes `ParseSPIRV` emit a
diagnostic and return with the module containing no instructions:
`operations`, `ids`, `globals` and `funcs` all stay empty. -/
theorem c1_parse_header_rejection (version : Nat) (spirv : List Nat)
    (body : List BodyInstr)
    (h : spirv.getD 0 0 ≠ MagicNumber ∨ spirv.getD 1 0 ≠ version) :
    1 ≤ (ParseSPIRV version spirv body).errors
    ∧ (ParseSPIRV version spirv body).operations = []
    ∧ (ParseSPIRV version spirv body).ids = []
    ∧ (ParseSPIRV version spirv body).globals = []
    ∧ (ParseSPIRV version spirv body).funcs = [] := by
  unfold ParseSPIRV
  by_cases hm : spirv.getD 0 0 ≠ MagicNumber
  · rw [if_pos hm]
    exact ⟨Nat.le_refl 1, rfl, rfl, rfl, rfl⟩
  · rw [if_neg hm]
    have hv : spirv.getD 1 0 ≠ version := by
      rcases h with h | h
      · exact absurd h hm
      · exact h
    rw [if_pos hv]
    exact ⟨Nat.le_refl 1, rfl, rfl, rfl, rfl⟩

/-- Witness for C1: a buffer starting with the wrong magic word, and one
with the right magic but the wrong version. -/
theorem c1_header_rejection_witness :
    1 ≤ (ParseSPIRV 99 [0x07230202, 99, 0, 8, 0] []).errors
    ∧ (ParseSPIRV 99 [0x07230202, 99, 0, 8, 0] []).operations = []
    ∧ (ParseSPIRV 99 [0x07230202, 99, 0, 8, 0] []).ids = []
    ∧ (ParseSPIRV 99 [0x07230202, 99, 0, 8, 0] []).globals = []
    ∧ (ParseSPIRV 99 [0x07230202, 99, 0, 8, 0] []).funcs = [] :=
  c1_parse_header_rejection 99 [0x07230202, 99, 0, 8, 0] [] (Or.inl (by decide))

/-- **C2.** After `ParseSPIRV` accepts a module its `ids` table has exactly
`idBound` (= `spirv[3]`) slots, and for every `k` below the table size
`GetByID k` succeeds: it returns the recorded instruction when `k` was
defined, and otherwise allocates and returns a dummy instruction with opcode
`OpUnknown` bearing id `k` and records it, so the lookup never fails. -/
theorem c2_getbyid_total (version : Nat) (spirv : List Nat) (body : List BodyInstr)
    (hmagic : spirv.getD 0 0 = MagicNumber) (hver : spirv.getD 1 0 = version) :
    (ParseSPIRV version spirv body).ids.length = spirv.getD 3 0
    ∧ (∀ (m : SPVModuleC) (k : Nat), k < m.ids.length →
        (∀ i, m.ids.getD k none = some i → GetByID m k = (m, i))
        ∧ (m.ids.getD k none = none →
            (GetByID m k).2.opcode = SPVOp.OpUnknown
            ∧ (GetByID m k).2.id = k
            ∧ (GetByID m k).1.ids.getD k none = some ((GetByID m k).2))) := by
  constructor
  · unfold ParseSPIRV
    rw [if_neg (not_not_intro hmagic)]
    rw [if_neg (not_not_intro hver)]
    rw [parseBody_ids_length]
    exact List.length_replicate _ _
  · intro m k hk
    constructor
    · intro i hi
      unfold GetByID
      rw [hi]
    · intro hnone
      unfold GetByID
      rw [hnone]
      refine ⟨rfl, rfl, ?_⟩
      show (m.ids.set k (some _)).getD k none = some _
      rw [List.getD_eq_getElem?_getD, List.getElem?_set_self (by simpa using hk)]
      rfl

/-!
## The function model for the inliner and its purity predicate

`SPVInstruction`s are stored in a single arena and cross-reference each
other by pointer; the embedding replaces pointers by arena indices.  The
structural fields (opcode, payload kind, flow data) are immutable during
`Disassemble`; the fields the inliner mutates — `op->complexity`,
`op->inlineArgs` and `op->arguments` — live in a separate annotation state
`Ann`, initialised from the parse results.
-/

/-- Structural part of an `SPVOperation` (the mutable annotations are in
`Ann`). -/
structure OperationS where
  arguments : List Nat
  funcCall : Nat := 0
deriving DecidableEq, Repr

/-- Structural part of an `SPVInstruction`: opcode, result id, operation
payload (`some` iff `op` non-null), whether the `var` payload is non-null,
and the flow payload's condition/targets (arena indices; `flowCond = some c`
iff `flow && flow->condition`). -/
structure InstrS where
  opcode : SPVOp
  id : Nat := 0
  op : Option OperationS := none
  isVar : Bool := false
  flowCond : Option Nat := none
  flowTargets : List Nat := []
deriving DecidableEq, Repr

/-- The instruction arena (`module.operations` as an index space). -/
abbrev Arena := List InstrS

def defaultInstr : InstrS := { opcode := SPVOp.OpUnknown }

/-- Pointer dereference: the instruction at arena index `i`. -/
def instrAt (arena : Arena) (i : Nat) : InstrS := arena.getD i defaultInstr

/-- An `SPVBlock`: its label instruction, member instructions, and merge/exit
flow instructions (arena indices). -/
structure BlockS where
  label : Nat
  instructions : List Nat
  mergeFlow : Option Nat := none
  exitFlow : Option Nat := none
deriving DecidableEq, Repr

/-- An `SPVFunction`, as the inliner reads it. -/
structure FunctionS where
  blocks : List BlockS
  localVars : List Nat  -- func->variables
deriving DecidableEq, Repr

/-- The mutable annotations of the operations, by arena index:
`op->complexity`, `op->inlineArgs`, and the (rewritable) `op->arguments`. -/
structure Ann where
  cx : Nat → Int
  ia : Nat → Nat
  args : Nat → List Nat

/-- Annotations as the parser leaves them: complexity 0 except
`OpCompositeInsert` (set to 100: "never combine composite insert"),
no inline bits, and the parsed argument lists. -/
def initAnn (arena : Arena) : Ann :=
  { cx := fun i =>
      if (instrAt arena i).opcode = SPVOp.OpCompositeInsert then 100 else 0,
    ia := fun _ => 0,
    args := fun i => ((instrAt arena i).op.getD {arguments := []}).arguments }

/-- Arguments precede their instruction in the arena (allocation follows
program order, and SPIR-V operands are defined before use). -/
def ArgsDec (args : Nat → List Nat) : Prop := ∀ i a, a ∈ args i → a < i

/-!
### `IsUnmodified` (lines 1260-1318)
-/

/-- Result of scanning one block's instruction list in the Load case of
`IsUnmodified`: continue into the next block with the current `looking`
flag, stop because `to` was reached, or fail because a store to the
variable was seen while looking. -/
inductive ScanRes where
  | cont (looking : Bool)
  | done
  | impure
deriving DecidableEq, Repr

/-- The inner loop `for(size_t i=0; i < block->block->instructions.size(); i++)`
of `IsUnmodified`'s Load case. -/
def scanInstrs (arena : Arena) (args : Nat → List Nat) (fromI toI varI : Nat) :
    List Nat → Bool → ScanRes
  | [], looking => ScanRes.cont looking
  | instr :: rest, looking =>
    if instr = fromI then
      scanInstrs arena args fromI toI varI rest true
    else if instr = toI then
      ScanRes.done
    else if looking ∧ (instrAt arena instr).opcode = SPVOp.OpStore
        ∧ (args instr).getD 0 0 = varI then
      ScanRes.impure
    else
      scanInstrs arena args fromI toI varI rest looking

/-- The outer loop `for(size_t b=0; b < func->blocks.size(); b++)`:
`false` = a store to the variable was found between `from` and `to`
(the C++ `return false`), `true` = pure. -/
def scanBlocks (arena : Arena) (args : Nat → List Nat) (fromI toI varI : Nat) :
    List BlockS → Bool → Bool
  | [], _ => true
  | blk :: rest, looking =>
    match scanInstrs arena args fromI toI varI blk.instructions looking with
    | ScanRes.impure => false
    | ScanRes.done => true
    | ScanRes.cont looking' => scanBlocks arena args fromI toI varI rest looking'

/-- `IsUnmodified(func, from, to)`, fuelled for the recursion over operand
instructions (`IsUnmodified` supplies `from + 1`, which suffices whenever
arguments precede their instruction; the fuel-out value is never reached
then). -/
def IsUnmodifiedF (arena : Arena) (args : Nat → List Nat) (func : FunctionS) :
    Nat → Nat → Nat → Bool
  | 0, _, _ => false
  | fuel+1, fromI, toI =>
    match (instrAt arena fromI).op with
    | none =>
      -- "if it's not a variable (e.g. constant or something), just return
      -- true, it's pure"
      true
    | some _ =>
      if (instrAt arena fromI).opcode = SPVOp.OpLoad
          ∧ (instrAt arena ((args fromI).getD 0 0)).isVar = true then
        -- a load of a variable: scan all blocks linearly for intervening
        -- stores to that variable
        scanBlocks arena args fromI toI ((args fromI).getD 0 0) func.blocks false
      else
        -- otherwise recurse: pure iff all arguments are pure up to `to`,
        -- except a Store's destination argument (position 0)
        (List.range (args fromI).length).all fun i =>
          if (instrAt arena fromI).opcode = SPVOp.OpStore ∧ i = 0 then true
          else IsUnmodifiedF arena args func fuel ((args fromI).getD i 0) toI

/-- `IsUnmodified` over the current argument state. -/
def IsUnmodified (arena : Arena) (args : Nat → List Nat) (func : FunctionS)
    (fromI toI : Nat) : Bool :=
  IsUnmodifiedF arena args func (fromI + 1) fromI toI

/-- The linear block order: all block instruction lists concatenated. -/
def funcLinear (func : FunctionS) : List Nat :=
  (func.blocks.map (·.instructions)).flatten

/-- `x` occurs in `L` exactly once, at position `p`. -/
def occursOnceAt (L : List Nat) (x : Nat) (p : Nat) : Prop :=
  L[p]? = some x ∧ ∀ j, L[j]? = some x → j = p

/-- Is arena index `x` a `Store` whose destination is `varI`? -/
def isStoreTo (arena : Arena) (args : Nat → List Nat) (varI x : Nat) : Bool :=
  (instrAt arena x).opcode = SPVOp.OpStore && (args x).getD 0 0 = varI

/-! ### Lemmas about `IsUnmodified` -/

theorem all_congr' {α : Type} (l : List α) (f g : α → Bool)
    (h : ∀ x ∈ l, f x = g x) : l.all f = l.all g := by
  induction l with
  | nil => rfl
  | cons a t ih =>
    rw [List.all_cons, List.all_cons, h a (List.mem_cons_self a t),
      ih (fun x hx => h x (List.mem_cons_of_mem a hx))]

/-- Two sufficient fuels give `IsUnmodifiedF` the same value, provided
arguments precede their instruction. -/
theorem IsUnmodifiedF_stable (arena : Arena) (args : Nat → List Nat)
    (func : FunctionS) (hdec : ArgsDec args) :
    ∀ f1 fromI toI f2 : Nat, fromI < f1 → fromI < f2 →
      IsUnmodifiedF arena args func f1 fromI toI =
      IsUnmodifiedF arena args func f2 fromI toI := by
  intro f1
  induction f1 with
  | zero => intro fromI toI f2 h1 h2; omega
  | succ a ih =>
    intro fromI toI f2 h1 h2
    match f2, h2 with
    | b+1, h2 =>
      show IsUnmodifiedF arena args func (a+1) fromI toI =
        IsUnmodifiedF arena args func (b+1) fromI toI
      rw [IsUnmodifiedF, IsUnmodifiedF]
      cases hop : (instrAt arena fromI).op with
      | none => rfl
      | some o =>
        by_cases hld : (instrAt arena fromI).opcode = SPVOp.OpLoad
            ∧ (instrAt arena ((args fromI).getD 0 0)).isVar = true
        · rw [if_pos hld, if_pos hld]
        · rw [if_neg hld, if_neg hld]
          refine all_congr' _ _ _ ?_
          intro i hi
          rw [List.mem_range] at hi
          by_cases hst : (instrAt arena fromI).opcode = SPVOp.OpStore ∧ i = 0
          · rw [if_pos hst, if_pos hst]
          · rw [if_neg hst, if_neg hst]
            have hmem : (args fromI).getD i 0 ∈ args fromI := by
              rw [List.getD_eq_getElem _ _ hi]
              exact List.getElem_mem hi
            have harg : (args fromI).getD i 0 < fromI := hdec fromI _ hmem
            exact ih _ toI b (by omega) (by omega)

theorem IsUnmodifiedF_eq_IsUnmodified (arena : Arena) (args : Nat → List Nat)
    (func : FunctionS) (hdec : ArgsDec args) (fuel fromI toI : Nat)
    (h : fromI < fuel) :
    IsUnmodifiedF arena args func fuel fromI toI =
      IsUnmodified arena args func fromI toI :=
  IsUnmodifiedF_stable arena args func hdec fuel fromI toI (fromI + 1) h
    (Nat.lt_succ_self fromI)

theorem scanInstrs_append (arena : Arena) (args : Nat → List Nat)
    (fromI toI varI : Nat) (xs ys : List Nat) (looking : Bool) :
    scanInstrs arena args fromI toI varI (xs ++ ys) looking =
      (match scanInstrs arena args fromI toI varI xs looking with
       | ScanRes.cont l2 => scanInstrs arena args fromI toI varI ys l2
       | ScanRes.done => ScanRes.done
       | ScanRes.impure => ScanRes.impure) := by
  induction xs generalizing looking with
  | nil => rfl
  | cons a t ih =>
    rw [List.cons_append, scanInstrs, scanInstrs]
    by_cases h1 : a = fromI
    · rw [if_pos h1, if_pos h1, ih]
    · rw [if_neg h1, if_neg h1]
      by_cases h2 : a = toI
      · rw [if_pos h2, if_pos h2]
      · rw [if_neg h2, if_neg h2]
        by_cases h3 : looking = true ∧ (instrAt arena a).opcode = SPVOp.OpStore
            ∧ (args a).getD 0 0 = varI
        · rw [if_pos h3, if_pos h3]
        · rw [if_neg h3, if_neg h3, ih]

/-- The block loop equals a single scan over the concatenated instruction
lists. -/
theorem scanBlocks_eq (arena : Arena) (args : Nat → List Nat)
    (fromI toI varI : Nat) (blocks : List BlockS) (looking : Bool) :
    scanBlocks arena args fromI toI varI blocks looking =
      (match scanInstrs arena args fromI toI varI
          ((blocks.map (·.instructions)).flatten) looking with
       | ScanRes.impure => false
       | _ => true) := by
  induction blocks generalizing looking with
  | nil => rfl
  | cons b rest ih =>
    rw [List.map_cons, List.flatten_cons, scanInstrs_append, scanBlocks]
    cases h : scanInstrs arena args fromI toI varI b.instructions looking with
    | cont l2 => exact ih l2
    | done => rfl
    | impure => rfl

/-- In the not-looking phase, elements that are neither `from` nor `to` are
skipped. -/
theorem scanInstrs_skip_front (arena : Arena) (args : Nat → List Nat)
    (fromI toI varI : Nat) (A rest : List Nat)
    (hA : ∀ x ∈ A, x ≠ fromI ∧ x ≠ toI) :
    scanInstrs arena args fromI toI varI (A ++ rest) false =
      scanInstrs arena args fromI toI varI rest false := by
  induction A with
  | nil => rfl
  | cons a t ih =>
    have ha := hA a (List.mem_cons_self a t)
    rw [List.cons_append, scanInstrs, if_neg ha.1, if_neg ha.2,
      if_neg (by simp)]
    exact ih (fun x hx => hA x (List.mem_cons_of_mem a hx))

/-- In the looking phase, the scan reports `impure` exactly when a store to
the variable (other than `from` itself) stands before the occurrence of
`to`. -/
theorem scanInstrs_looking (arena : Arena) (args : Nat → List Nat)
    (fromI toI varI : Nat) (C D : List Nat) (hC : toI ∉ C) (hne : toI ≠ fromI) :
    scanInstrs arena args fromI toI varI (C ++ toI :: D) true =
      (if C.any (fun x => !(x = fromI) && isStoreTo arena args varI x)
       then ScanRes.impure else ScanRes.done) := by
  induction C with
  | nil =>
    rw [List.nil_append, scanInstrs, if_neg hne, if_pos rfl]
    simp
  | cons c t ih =>
    have hct : toI ∉ t := fun h => hC (List.mem_cons_of_mem c h)
    have hcc : ¬ c = toI := fun h => hC (h ▸ List.mem_cons_self c t)
    rw [List.cons_append, scanInstrs, List.any_cons]
    by_cases h1 : c = fromI
    · rw [if_pos h1, ih hct]
      have : (!(decide (c = fromI)) && isStoreTo arena args varI c) = false := by
        rw [decide_eq_true h1]
        rfl
      rw [this, Bool.false_or]
    · rw [if_neg h1, if_neg hcc]
      by_cases h3 : True ∧ (instrAt arena c).opcode = SPVOp.OpStore
          ∧ (args c).getD 0 0 = varI
      · rw [if_pos (by exact ⟨rfl, h3.2⟩)]
        have : (!(decide (c = fromI)) && isStoreTo arena args varI c) = true := by
          rw [decide_eq_false h1]
          unfold isStoreTo
          rw [decide_eq_true h3.2.1, decide_eq_true h3.2.2]
          rfl
        rw [this, Bool.true_or, if_pos rfl]
      · rw [if_neg (by
          intro hcontra
          exact h3 ⟨trivial, hcontra.2⟩)]
        rw [ih hct]
        have : (!(decide (c = fromI)) && isStoreTo arena args varI c) = false := by
          rw [decide_eq_false h1]
          unfold isStoreTo
          by_cases hs : (instrAt arena c).opcode = SPVOp.OpStore
          · have hv : ¬ (args c).getD 0 0 = varI := fun hv => h3 ⟨trivial, hs, hv⟩
            rw [decide_eq_false hv]
            simp
          · rw [decide_eq_false hs]
            simp
        rw [this, Bool.false_or]

theorem not_mem_take_of_unique (L : List Nat) (x p n : Nat)
    (hocc : ∀ j, L[j]? = some x → j = p) (hn : n ≤ p) : x ∉ L.take n := by
  intro hmem
  rw [List.mem_iff_getElem?] at hmem
  rcases hmem with ⟨j, hj⟩
  rw [List.getElem?_take] at hj
  by_cases hjn : j < n
  · rw [if_pos hjn] at hj
    have := hocc j hj
    omega
  · rw [if_neg hjn] at hj
    exact Option.noConfusion hj

/-- Full characterisation of the Load-case scan over the linear order. -/
theorem scanInstrs_spec (arena : Arena) (args : Nat → List Nat)
    (fromI toI varI : Nat) (L : List Nat) (p q : Nat)
    (hfrom : occursOnceAt L fromI p) (hto : occursOnceAt L toI q)
    (hne : fromI ≠ toI) :
    ((match scanInstrs arena args fromI toI varI L false with
      | ScanRes.impure => false
      | _ => true) = true ↔
      ¬ ∃ k x, p < k ∧ k < q ∧ L[k]? = some x ∧
        isStoreTo arena args varI x = true) := by
  rcases hfrom with ⟨hp, hpu⟩
  rcases hto with ⟨hq, hqu⟩
  have hplen : p < L.length := by
    rcases List.getElem?_eq_some.mp hp with ⟨h, _⟩
    exact h
  have hqlen : q < L.length := by
    rcases List.getElem?_eq_some.mp hq with ⟨h, _⟩
    exact h
  have hpq : p ≠ q := by
    intro hc
    rw [hc, hq] at hp
    exact hne (Option.some_inj.mp hp).symm
  rcases Nat.lt_or_ge q p with hqp | hpq2
  · -- `to` stands before `from`: the scan stops at `to` while not yet
    -- looking, and no position lies strictly between p and q
    have hLq : L[q] = toI := by
      have h2 := List.getElem?_eq_getElem hqlen
      rw [h2] at hq
      exact Option.some_inj.mp hq
    have hdecomp : L = L.take q ++ toI :: L.drop (q+1) := by
      conv_lhs => rw [← List.take_append_drop q L,
        List.drop_eq_getElem_cons hqlen, hLq]
    have hA : ∀ x ∈ L.take q, x ≠ fromI ∧ x ≠ toI := by
      intro x hx
      constructor
      · intro hc
        exact absurd hx (hc ▸ not_mem_take_of_unique L fromI p q hpu (by omega))
      · intro hc
        exact absurd hx (hc ▸ not_mem_take_of_unique L toI q q hqu (by omega))
    constructor
    · intro _ hex
      rcases hex with ⟨k, x, hk1, hk2, _, _⟩
      omega
    · intro _
      conv_lhs => rw [hdecomp]
      rw [scanInstrs_skip_front arena args fromI toI varI _ _ hA]
      rw [scanInstrs, if_neg (fun h => hne h.symm), if_pos rfl]
  · -- p < q
    have hpq3 : p < q := by omega
    have hLp : L[p] = fromI := by
      have h2 := List.getElem?_eq_getElem hplen
      rw [h2] at hp
      exact Option.some_inj.mp hp
    have hdecomp : L = L.take p ++ fromI :: L.drop (p+1) := by
      conv_lhs => rw [← List.take_append_drop p L,
        List.drop_eq_getElem_cons hplen, hLp]
    have hA : ∀ x ∈ L.take p, x ≠ fromI ∧ x ≠ toI := by
      intro x hx
      constructor
      · intro hc
        exact absurd hx (hc ▸ not_mem_take_of_unique L fromI p p hpu (by omega))
      · intro hc
        exact absurd hx (hc ▸ not_mem_take_of_unique L toI q p hqu (by omega))
    -- the dropped tail contains `to` at position q - p - 1
    have hq2 : (L.drop (p+1))[q - p - 1]? = some toI := by
      rw [List.getElem?_drop]
      have : p + 1 + (q - p - 1) = q := by omega
      rw [this]
      exact hq
    have hq2len : q - p - 1 < (L.drop (p+1)).length := by
      rcases List.getElem?_eq_some.mp hq2 with ⟨h, _⟩
      exact h
    have hLq2 : (L.drop (p+1))[q-p-1] = toI := by
      have h2 := List.getElem?_eq_getElem hq2len
      rw [h2] at hq2
      exact Option.some_inj.mp hq2
    have hdecomp2 : L.drop (p+1) =
        (L.drop (p+1)).take (q-p-1) ++ toI :: (L.drop (p+1)).drop (q-p-1+1) := by
      conv_lhs => rw [← List.take_append_drop (q-p-1) (L.drop (p+1)),
        List.drop_eq_getElem_cons hq2len, hLq2]
    have hCto : toI ∉ (L.drop (p+1)).take (q-p-1) := by
      intro hmem
      rw [List.mem_iff_getElem?] at hmem
      rcases hmem with ⟨j, hj⟩
      rw [List.getElem?_take] at hj
      by_cases hjq : j < q-p-1
      · rw [if_pos hjq, List.getElem?_drop] at hj
        have := hqu _ hj
        omega
      · rw [if_neg hjq] at hj
        exact Option.noConfusion hj
    have hscan : scanInstrs arena args fromI toI varI L false =
        (if ((L.drop (p+1)).take (q-p-1)).any
            (fun x => !(x = fromI) && isStoreTo arena args varI x)
         then ScanRes.impure else ScanRes.done) := by
      conv_lhs => rw [hdecomp]
      rw [scanInstrs_skip_front arena args fromI toI varI _ _ hA]
      rw [scanInstrs, if_pos rfl]
      conv_lhs => rw [hdecomp2]
      exact scanInstrs_looking arena args fromI toI varI _ _ hCto
        (fun h => hne h.symm)
    have hany : ((L.drop (p+1)).take (q-p-1)).any
        (fun x => !(x = fromI) && isStoreTo arena args varI x) = true ↔
        (∃ k x, p < k ∧ k < q ∧ L[k]? = some x ∧
          isStoreTo arena args varI x = true) := by
      rw [List.any_eq_true]
      constructor
      · rintro ⟨x, hmem, hcond⟩
        rw [List.mem_iff_getElem?] at hmem
        rcases hmem with ⟨m, hm⟩
        rw [List.getElem?_take] at hm
        by_cases hmq : m < q-p-1
        · rw [if_pos hmq, List.getElem?_drop] at hm
          refine ⟨p+1+m, x, by omega, by omega, hm, ?_⟩
          exact ((Bool.and_eq_true _ _).mp hcond).2
        · rw [if_neg hmq] at hm
          exact absurd hm (by simp)
      · rintro ⟨k, x, hk1, hk2, hkL, hst⟩
        refine ⟨x, ?_, ?_⟩
        · rw [List.mem_iff_getElem?]
          refine ⟨k - p - 1, ?_⟩
          rw [List.getElem?_take, if_pos (by omega), List.getElem?_drop]
          have : p + 1 + (k - p - 1) = k := by omega
          rw [this]
          exact hkL
        · have hxne : ¬ x = fromI := by
            intro hc
            rw [hc] at hkL
            have := hpu _ hkL
            omega
          rw [decide_eq_false hxne]
          rw [hst]
          rfl
    rw [hscan]
    by_cases ha : ((L.drop (p+1)).take (q-p-1)).any
        (fun x => !(x = fromI) && isStoreTo arena args varI x) = true
    · rw [if_pos ha]
      constructor
      · intro hc
        exact absurd hc (by simp)
      · intro hc
        exact absurd (hany.mp ha) hc
    · rw [if_neg ha]
      constructor
      · intro _ hex
        exact ha (hany.mpr hex)
      · intro _
        rfl

/-- `ArgsDec` for the parsed argument lists follows from the bounded
(decidable) condition over the arena. -/
theorem argsDec_init (arena : Arena)
    (h : ∀ i, i < arena.length →
      ∀ a ∈ ((instrAt arena i).op.getD {arguments := []}).arguments, a < i) :
    ArgsDec (initAnn arena).args := by
  intro i a ha
  by_cases hi : i < arena.length
  · exact h i hi a ha
  · exfalso
    have : instrAt arena i = defaultInstr := by
      unfold instrAt
      rw [List.getD_eq_getElem?_getD, List.getElem?_eq_none (by omega)]
      rfl
    unfold initAnn at ha
    simp only at ha
    rw [this] at ha
    exact absurd ha (by simp [defaultInstr])

/-- **C5.** The purity predicate `IsUnmodified(from, to)`:
* a non-operation instruction (constant, variable, parameter) is pure;
* a `Load` of a variable is pure iff no `Store` to that variable stands in
  linear block order strictly between `from` and `to`;
* any other operation is pure iff every operand is itself pure up to `to`,
  with a `Store`'s destination operand (position 0) exempt from the
  recursion. -/
theorem c5_isunmodified_spec (arena : Arena) (args : Nat → List Nat)
    (func : FunctionS) (fromI toI : Nat) (hdec : ArgsDec args) :
    ((instrAt arena fromI).op = none →
        IsUnmodified arena args func fromI toI = true)
    ∧ (∀ p q,
        (instrAt arena fromI).op.isSome = true →
        (instrAt arena fromI).opcode = SPVOp.OpLoad →
        (instrAt arena ((args fromI).getD 0 0)).isVar = true →
        occursOnceAt (funcLinear func) fromI p →
        occursOnceAt (funcLinear func) toI q →
        fromI ≠ toI →
        (IsUnmodified arena args func fromI toI = true ↔
          ¬ ∃ k x, p < k ∧ k < q ∧ (funcLinear func)[k]? = some x ∧
            isStoreTo arena args ((args fromI).getD 0 0) x = true))
    ∧ (∀ o, (instrAt arena fromI).op = some o →
        ¬((instrAt arena fromI).opcode = SPVOp.OpLoad ∧
          (instrAt arena ((args fromI).getD 0 0)).isVar = true) →
        (IsUnmodified arena args func fromI toI = true ↔
          ∀ i, i < (args fromI).length →
            ((instrAt arena fromI).opcode = SPVOp.OpStore ∧ i = 0) ∨
            IsUnmodified arena args func ((args fromI).getD i 0) toI = true)) := by
  refine ⟨?_, ?_, ?_⟩
  · intro hnone
    unfold IsUnmodified IsUnmodifiedF
    rw [hnone]
  · intro p q hsome hload hvar hoccf hocct hne
    rcases Option.isSome_iff_exists.mp hsome with ⟨o, ho⟩
    unfold IsUnmodified IsUnmodifiedF
    rw [ho]
    rw [if_pos ⟨hload, hvar⟩]
    rw [scanBlocks_eq]
    exact scanInstrs_spec arena args fromI toI ((args fromI).getD 0 0)
      (funcLinear func) p q hoccf hocct hne
  · intro o ho hnotload
    have hmain : IsUnmodified arena args func fromI toI =
        (List.range (args fromI).length).all (fun i =>
          if (instrAt arena fromI).opcode = SPVOp.OpStore ∧ i = 0 then true
          else IsUnmodifiedF arena args func fromI ((args fromI).getD i 0) toI) := by
      unfold IsUnmodified
      rw [IsUnmodifiedF, ho, if_neg hnotload]
    rw [hmain, List.all_eq_true]
    constructor
    · intro hall i hi
      have := hall i (List.mem_range.mpr hi)
      by_cases hst : (instrAt arena fromI).opcode = SPVOp.OpStore ∧ i = 0
      · exact Or.inl hst
      · rw [if_neg hst] at this
        refine Or.inr ?_
        have hmem : (args fromI).getD i 0 ∈ args fromI := by
          rw [List.getD_eq_getElem _ _ hi]
          exact List.getElem_mem hi
        have harg : (args fromI).getD i 0 < fromI := hdec fromI _ hmem
        rw [← IsUnmodifiedF_eq_IsUnmodified arena args func hdec fromI _ toI
          (by omega)]
        exact this
    · intro hall i hi
      rw [List.mem_range] at hi
      by_cases hst : (instrAt arena fromI).opcode = SPVOp.OpStore ∧ i = 0
      · rw [if_pos hst]
      · rw [if_neg hst]
        rcases hall i hi with hc | hc
        · exact absurd hc hst
        · have hmem : (args fromI).getD i 0 ∈ args fromI := by
            rw [List.getD_eq_getElem _ _ hi]
            exact List.getElem_mem hi
          have harg : (args fromI).getD i 0 < fromI := hdec fromI _ hmem
          rw [IsUnmodifiedF_eq_IsUnmodified arena args func hdec fromI _ toI
            (by omega)]
          exact hc

/-- Witness for C5: a tiny function.  Arena: index 0 a variable, index 1 a
`Load` of it, index 2 a `Store` writing the variable, index 3 a second
`Load`; one block `[1, 2, 3]`.  The first load is impure w.r.t. the second
load (the store stands between them). -/
def c5Arena : Arena :=
  [ { opcode := SPVOp.OpVariable, id := 1, isVar := true },
    { opcode := SPVOp.OpLoad, id := 2, op := some { arguments := [0] } },
    { opcode := SPVOp.OpStore, op := some { arguments := [0, 1] } },
    { opcode := SPVOp.OpLoad, id := 3, op := some { arguments := [0] } } ]

def c5Func : FunctionS :=
  { blocks := [ { label := 9, instructions := [1, 2, 3] } ], localVars := [0] }

theorem c5_witness :
    IsUnmodified c5Arena (initAnn c5Arena).args c5Func 1 3 = true ↔
      ¬ ∃ k x, 0 < k ∧ k < 2 ∧ (funcLinear c5Func)[k]? = some x ∧
        isStoreTo c5Arena (initAnn c5Arena).args
          (((initAnn c5Arena).args 1).getD 0 0) x = true := by
  have hdec : ArgsDec (initAnn c5Arena).args :=
    argsDec_init c5Arena (by decide)
  exact (c5_isunmodified_spec c5Arena (initAnn c5Arena).args c5Func 1 3
      hdec).2.1 0 2 (by decide) (by decide) (by decide)
    (by constructor
        · rfl
        · intro j hj
          match j, hj with
          | 0, hj => rfl
          | 1, hj => exact absurd hj (by decide)
          | 2, hj => exact absurd hj (by decide)
          | j+3, hj => exact absurd hj (by simp [funcLinear, c5Func]))
    (by constructor
        · rfl
        · intro j hj
          match j, hj with
          | 0, hj => exact absurd hj (by decide)
          | 1, hj => exact absurd hj (by decide)
          | 2, hj => rfl
          | j+3, hj => exact absurd hj (by simp [funcLinear, c5Func]))
    (by decide)

/-!
## The inliner pass (`SPVModule::Disassemble`, lines 1484-1833)

Per function the pass builds a local copy `vars` of the function variables
and the emit list `funcops`, then walks the blocks: pushing labels, folding
arguments into their consumers, eliding single-store/single-load variables,
merging adjacent stores of temporaries, and eliding call-parameter
temporaries.  `elided` counts the argument-rewriting elisions (the
single-store/single-load elision and the call-parameter rewrites);
`crashed` records reaching the null `storeUse` dereference of the
out-parameter path.
-/

/-- `#define NO_INLINE_COMPLEXITY 3`. -/
def NO_INLINE_COMPLEXITY : Int := 3

def Ann.setCx (a : Ann) (i : Nat) (v : Int) : Ann :=
  { a with cx := Function.update a.cx i v }

def Ann.orIa (a : Ann) (i : Nat) (v : Nat) : Ann :=
  { a with ia := Function.update a.ia i (a.ia i ||| v) }

def Ann.setArgs (a : Ann) (i : Nat) (v : List Nat) : Ann :=
  { a with args := Function.update a.args i v }

/-- The state the pass threads per function. -/
structure PassState where
  ann : Ann
  funcops : List Nat
  vars : List Nat
  ignore : List Nat
  elided : Nat
  crashed : Bool

/-- The per-argument gate of the folding loop (lines 1512-1537): `true` iff
control reaches the fold (`erase_item(funcops, arg)` and
`inlineArgs |= 1<<a`).  A non-operation argument always folds; an operation
argument must pass the complexity cap (2 inside a composite construct, else
`NO_INLINE_COMPLEXITY`), the width check (at most 2 arguments unless it is
an access chain, select or composite construct), and — except for a Store's
destination argument — the purity check `IsUnmodified`. -/
def argFoldGate (arena : Arena) (ann : Ann) (func : FunctionS)
    (instrIdx a argIdx : Nat) : Bool :=
  match (instrAt arena argIdx).op with
  | none => true
  | some _ =>
    -- allow less inlining in composite constructs
    let maxAllowedComplexity : Int :=
      if (instrAt arena instrIdx).opcode = SPVOp.OpCompositeConstruct
      then min 2 NO_INLINE_COMPLEXITY else NO_INLINE_COMPLEXITY
    if ann.cx argIdx ≥ maxAllowedComplexity ∨
        ((ann.args argIdx).length > 2 ∧
         (instrAt arena argIdx).opcode ≠ SPVOp.OpAccessChain ∧
         (instrAt arena argIdx).opcode ≠ SPVOp.OpSelect ∧
         (instrAt arena argIdx).opcode ≠ SPVOp.OpCompositeConstruct) then
      false
    else if ((instrAt arena instrIdx).opcode ≠ SPVOp.OpStore ∨ 0 < a) ∧
        IsUnmodified arena ann.args func argIdx instrIdx = false then
      -- "Do not inline this argument if it relies on a load from a variable
      -- that is written to between the argument and this op"
      false
    else
      true

/-- One iteration of the folding loop over argument positions; the
accumulator is `(ann, funcops, maxcomplex)`. -/
def argLoopStep (arena : Arena) (func : FunctionS) (instrIdx : Nat)
    (st : Ann × List Nat × Int) (a : Nat) : Ann × List Nat × Int :=
  let ann := st.1
  let funcops := st.2.1
  let maxcomplex := st.2.2
  let argIdx := (ann.args instrIdx).getD a 0
  if argFoldGate arena ann func instrIdx a argIdx then
    let maxcomplex : Int :=
      match (instrAt arena argIdx).op with
      | some _ => max (ann.cx argIdx) maxcomplex
      | none => maxcomplex
    (ann.orIa instrIdx (1 <<< a), funcops.erase argIdx, maxcomplex)
  else
    (ann, funcops, maxcomplex)

/-- `for(size_t a=0; a < instr->op->arguments.size(); a++) ...` -/
def argLoop (arena : Arena) (func : FunctionS) (ann : Ann)
    (funcops : List Nat) (instrIdx : Nat) : Ann × List Nat × Int :=
  (List.range (ann.args instrIdx).length).foldl
    (argLoopStep arena func instrIdx) (ann, funcops, 0)

/-- The single-store/single-load variable elision (lines 1565-1612).
Returns the new `(ann, funcops, vars)` and 1 when the elision fired. -/
def loadElide (arena : Arena) (func : FunctionS) (ann : Ann)
    (funcops vars : List Nat) (instrIdx : Nat) :
    Ann × List Nat × List Nat × Nat :=
  if (instrAt arena instrIdx).opcode = SPVOp.OpLoad ∧ funcops.length > 1 then
    let scan := funcops.foldl (fun (acc : Option Nat × Nat) o =>
      if (instrAt arena o).opcode = SPVOp.OpStore ∧
          (ann.args o).getD 0 0 = (ann.args instrIdx).getD 0 0 then
        (some o, acc.2 + 1)
      else acc) (none, 0)
    match scan.1 with
    | some ps =>
      if scan.2 = 1 ∧ IsUnmodified arena ann.args func ps instrIdx = true then
        -- the load must be the only load of the variable in the function
        let otherload := func.blocks.any (fun blk =>
          blk.instructions.any (fun other =>
            other ≠ instrIdx ∧ (instrAt arena other).opcode = SPVOp.OpLoad ∧
            (ann.args other).getD 0 0 = (ann.args instrIdx).getD 0 0))
        if otherload then (ann, funcops, vars, 0)
        else
          let ann := ann.setCx instrIdx (max (ann.cx instrIdx) (ann.cx ps))
          let vars := vars.erase ((ann.args instrIdx).getD 0 0)
          let funcops := funcops.erase ps
          let ann := ann.setArgs instrIdx (ps :: (ann.args instrIdx).drop 1)
          (ann, funcops, vars, 1)
      else (ann, funcops, vars, 0)
    | none => (ann, funcops, vars, 0)
  else (ann, funcops, vars, 0)

/-- The adjacent store-of-temporary merge (lines 1616-1625). -/
def adjacentMerge (arena : Arena) (ann : Ann) (funcops : List Nat)
    (instrIdx : Nat) : Ann × List Nat :=
  if ((instrAt arena instrIdx).opcode = SPVOp.OpStore ∨
      (instrAt arena instrIdx).opcode = SPVOp.OpCompositeInsert) ∧
      funcops.length > 1 then
    if (ann.args instrIdx).getD 1 0 = funcops.getD (funcops.length - 2) 0 then
      let arg1 := (ann.args instrIdx).getD 1 0
      let funcops := funcops.erase arg1
      let ann := match (instrAt arena arg1).op with
        | some _ => ann.setCx instrIdx (max (ann.cx instrIdx) (ann.cx arg1))
        | none => ann
      (ann.orIa instrIdx 2, funcops)
    else (ann, funcops)
  else (ann, funcops)

/-- The scan over block instructions before the call (lines 1653-1686):
`none` = the argument cannot be replaced; `some sb` = fine so far with
`storeBefore = sb`.  Usages are matched by SSA id
(`searchInst->op->arguments[aa]->id == arg->id`). -/
def callScanBeforeStep (arena : Arena) (ann : Ann) (argId : Nat)
    (st : Option (Option Nat)) (j : Nat) : Option (Option Nat) :=
  match st with
  | none => none
  | some sb =>
    let inst := instrAt arena j
    let res : Option (Option Nat) :=
      match inst.op with
      | none => some sb
      | some _ =>
        (ann.args j).foldl (fun acc argI =>
          match acc with
          | none => none
          | some sb2 =>
            if (instrAt arena argI).id = argId then
              if inst.opcode = SPVOp.OpStore then
                match sb2 with
                | some _ => none        -- used in multiple stores
                | none => some (some j)
              else none                 -- used in anything but a store
            else some sb2) (some sb)
    match res with
    | none => none
    | some sb3 =>
      -- if it is used in a condition, it cannot be folded
      match inst.flowCond with
      | some c => if (instrAt arena c).id = argId then none else some sb3
      | none => some sb3

/-- The scan over block instructions after the call (lines 1688-1721); the
element carries its block position, so `loadAfter` is found with its
`loadIdx`. -/
def callScanAfterStep (arena : Arena) (ann : Ann) (argId : Nat)
    (st : Option (Option (Nat × Nat))) (jp : Nat × Nat) :
    Option (Option (Nat × Nat)) :=
  match st with
  | none => none
  | some la =>
    let j := jp.2
    let inst := instrAt arena j
    let res : Option (Option (Nat × Nat)) :=
      match inst.op with
      | none => some la
      | some _ =>
        (ann.args j).foldl (fun acc argI =>
          match acc with
          | none => none
          | some la2 =>
            if (instrAt arena argI).id = argId then
              if inst.opcode = SPVOp.OpLoad then
                match la2 with
                | some _ => none        -- used in multiple loads
                | none => some (some jp)
              else none
            else some la2) (some la)
    match res with
    | none => none
    | some la3 =>
      match inst.flowCond with
      | some c => if (instrAt arena c).id = argId then none else some la3
      | none => some la3

/-- The scan for the single store consuming `loadAfter` (lines 1743-1776);
these comparisons are by pointer (`arguments[aa] == loadAfter`). -/
def callScanUseStep (arena : Arena) (ann : Ann) (loadAfter : Nat)
    (st : Option (Option Nat)) (j : Nat) : Option (Option Nat) :=
  match st with
  | none => none
  | some su =>
    let inst := instrAt arena j
    let res : Option (Option Nat) :=
      match inst.op with
      | none => some su
      | some _ =>
        (ann.args j).foldl (fun acc argI =>
          match acc with
          | none => none
          | some su2 =>
            if argI = loadAfter then
              if inst.opcode = SPVOp.OpStore then
                match su2 with
                | some _ => none
                | none => some (some j)
              else none
            else some su2) (some su)
    match res with
    | none => none
    | some su3 =>
      match inst.flowCond with
      | some c => if c = loadAfter then none else some su3
      | none => some su3

/-- The call-parameter elision for one call argument (lines 1631-1810). -/
def callElideArg (arena : Arena) (func : FunctionS) (blockInstrs : List Nat)
    (i : Nat) (st : PassState) (instrIdx a : Nat) : PassState :=
  let ann := st.ann
  let argIdx := (ann.args instrIdx).getD a 0
  let argId := (instrAt arena argIdx).id
  let before := (blockInstrs.take i).foldl (callScanBeforeStep arena ann argId)
      (some none)
  let after := (blockInstrs.enum.drop (i+1)).foldl
      (callScanAfterStep arena ann argId) (some none)
  match before, after with
  | some sb, some la =>
    match sb, la with
    | some storeBefore, none =>
      -- in parameter: remove the store, pass the stored value directly
      { st with
        funcops := st.funcops.erase storeBefore,
        vars := st.vars.erase argIdx,
        ann := ann.setArgs instrIdx
          ((ann.args instrIdx).set a ((ann.args storeBefore).getD 1 0)),
        elided := st.elided + 1 }
    | _, some lp =>
      -- out or inout parameter
      let use := (blockInstrs.drop (lp.1 + 1)).foldl
          (callScanUseStep arena ann lp.2) (some none)
      match use with
      | none => st
      | some none =>
        -- the source dereferences the null `storeUse` here and crashes
        { st with crashed := true }
      | some (some storeUse) =>
        let preOk : Option PassState :=
          match sb with
          | some storeBefore =>
            -- inout: the store before the call must come from a load of the
            -- same variable the post-call store writes
            if (instrAt arena ((ann.args storeBefore).getD 1 0)).opcode =
                  SPVOp.OpLoad ∧
               (instrAt arena
                  ((ann.args ((ann.args storeBefore).getD 1 0)).getD 0 0)).id =
               (instrAt arena ((ann.args storeUse).getD 0 0)).id then
              some { st with funcops := st.funcops.erase storeBefore }
            else none
          | none => some st
        match preOk with
        | none => st
        | some st2 =>
          { st2 with
            ignore := st2.ignore ++ [storeUse],
            vars := st2.vars.erase argIdx,
            ann := st2.ann.setArgs instrIdx
              ((st2.ann.args instrIdx).set a ((st2.ann.args storeUse).getD 0 0)),
            elided := st2.elided + 1 }
    | none, none => st
  | _, _ => st

/-- The tail of one instruction's processing, from the load elision on
(lines 1565-1812): `base` carries the emit-independent state, `ann` the
annotations after the folding loop and the complexity bump, `funcops` the
emit list after the folds. -/
def coreTail (arena : Arena) (func : FunctionS) (blockInstrs : List Nat)
    (i : Nat) (base : PassState) (ann : Ann) (funcops : List Nat)
    (instrIdx : Nat) : PassState :=
  let le := loadElide arena func ann funcops base.vars instrIdx
  let am := adjacentMerge arena le.1 le.2.1 instrIdx
  let st := { base with
    ann := am.1
    funcops := am.2
    vars := le.2.2.1
    elided := base.elided + le.2.2.2 }
  if (instrAt arena instrIdx).opcode = SPVOp.OpFunctionCall then
    (List.range (st.ann.args instrIdx).length).foldl
      (fun s a => callElideArg arena func blockInstrs i s instrIdx a) st
  else st

/-- Processing of one block instruction after the emit-list push (lines
1506-1812): argument folding, complexity, then the tail. -/
def procInstrCore (arena : Arena) (func : FunctionS) (blockInstrs : List Nat)
    (i : Nat) (st : PassState) (instrIdx : Nat) : PassState :=
  match (instrAt arena instrIdx).op with
  | none => st
  | some _ =>
    let r := argLoop arena func st.ann st.funcops instrIdx
    let ann := r.1.setCx instrIdx r.2.2
    let ann :=
      if (instrAt arena instrIdx).opcode ≠ SPVOp.OpStore ∧
         (instrAt arena instrIdx).opcode ≠ SPVOp.OpLoad ∧
         (instrAt arena instrIdx).opcode ≠ SPVOp.OpCompositeExtract ∧
         ann.ia instrIdx ≠ 0 then
        ann.setCx instrIdx (ann.cx instrIdx + 1)
      else ann
    coreTail arena func blockInstrs i st ann r.2.1 instrIdx

/-- Processing of one block instruction (lines 1497-1812): push it on the
emit list unless it is ignored, then run the core. -/
def procInstr (arena : Arena) (func : FunctionS) (blockInstrs : List Nat)
    (i : Nat) (st : PassState) : PassState :=
  let instrIdx := blockInstrs.getD i 0
  let st := if st.ignore.contains instrIdx then st
            else { st with funcops := st.funcops ++ [instrIdx] }
  procInstrCore arena func blockInstrs i st instrIdx

/-- The emit-list work after a block's instructions (lines 1813-1833):
push the merge flow, erase an inlined exit condition and returned value,
push the exit flow. -/
def blockPost (arena : Arena) (blk : BlockS) (funcops0 : List Nat) : List Nat :=
  let funcops := match blk.mergeFlow with
    | some mf => funcops0 ++ [mf]
    | none => funcops0
  match blk.exitFlow with
  | some ef =>
    -- branch conditions are inlined
    let funcops := match (instrAt arena ef).flowCond with
      | some c => funcops.erase c
      | none => funcops
    -- return values are inlined
    let funcops := if (instrAt arena ef).opcode = SPVOp.OpReturnValue then
        funcops.erase ((instrAt arena ef).flowTargets.getD 0 0)
      else funcops
    funcops ++ [ef]
  | none => funcops

/-- Processing of one block (lines 1487-1833): reset the per-block
`ignore_items`, push the label of every block but the first, process the
instructions, then the emit-list postlude. -/
def procBlock (arena : Arena) (func : FunctionS) (st0 : PassState)
    (b : Nat) (blk : BlockS) : PassState :=
  let st := { st0 with ignore := [] }
  let st := if b > 0 then { st with funcops := st.funcops ++ [blk.label] }
            else st
  let st := (List.range blk.instructions.length).foldl
      (fun s i => procInstr arena func blk.instructions i s) st
  { st with funcops := blockPost arena blk st.funcops }

/-- The starting state of one run: fresh local copies of `vars` and
`funcops`, the given annotations. -/
def initState (func : FunctionS) (ann : Ann) : PassState :=
  { ann := ann, funcops := [], vars := func.localVars, ignore := [],
    elided := 0, crashed := false }

/-- The whole inliner pass over one function. -/
def runInliner (arena : Arena) (func : FunctionS) (ann : Ann) : PassState :=
  func.blocks.enum.foldl (fun st p => procBlock arena func st p.1 p.2)
    (initState func ann)

/-- **C3.** For an operand `A` of an operation `I` that is itself an
operation, the folding loop folds `A` into `I` only if `A`'s complexity is
strictly below 3 (below 2 when `I` is an `OpCompositeConstruct`) and either
`A` has at most 2 arguments or `A` is an access chain, a select or a
composite construct. -/
theorem c3_inline_gate (arena : Arena) (ann : Ann) (func : FunctionS)
    (instrIdx a argIdx : Nat) (o : OperationS)
    (hop : (instrAt arena argIdx).op = some o)
    (hfold : argFoldGate arena ann func instrIdx a argIdx = true) :
    ann.cx argIdx <
      (if (instrAt arena instrIdx).opcode = SPVOp.OpCompositeConstruct
       then 2 else 3)
    ∧ ((ann.args argIdx).length ≤ 2 ∨
       (instrAt arena argIdx).opcode = SPVOp.OpAccessChain ∨
       (instrAt arena argIdx).opcode = SPVOp.OpSelect ∨
       (instrAt arena argIdx).opcode = SPVOp.OpCompositeConstruct) := by
  unfold argFoldGate at hfold
  rw [hop] at hfold
  simp only at hfold
  by_cases h1 : ann.cx argIdx ≥
      (if (instrAt arena instrIdx).opcode = SPVOp.OpCompositeConstruct
       then min 2 NO_INLINE_COMPLEXITY else NO_INLINE_COMPLEXITY) ∨
      ((ann.args argIdx).length > 2 ∧
       (instrAt arena argIdx).opcode ≠ SPVOp.OpAccessChain ∧
       (instrAt arena argIdx).opcode ≠ SPVOp.OpSelect ∧
       (instrAt arena argIdx).opcode ≠ SPVOp.OpCompositeConstruct)
  · rw [if_pos h1] at hfold
    exact absurd hfold (by simp)
  · have h2 := not_or.mp h1
    constructor
    · have := h2.1
      unfold NO_INLINE_COMPLEXITY at this
      by_cases hcc : (instrAt arena instrIdx).opcode = SPVOp.OpCompositeConstruct
      · rw [if_pos hcc] at this ⊢
        omega
      · rw [if_neg hcc] at this ⊢
        omega
    · rcases Decidable.not_and_iff_or_not.mp h2.2 with h | h
      · exact Or.inl (by omega)
      · rcases Decidable.not_and_iff_or_not.mp h with h | h
        · exact Or.inr (Or.inl (Decidable.not_not.mp h))
        · rcases Decidable.not_and_iff_or_not.mp h with h | h
          · exact Or.inr (Or.inr (Or.inl (Decidable.not_not.mp h)))
          · exact Or.inr (Or.inr (Or.inr (Decidable.not_not.mp h)))

/-- Witness for C3: a load operand of complexity 0 and width 1 passes the
gate into an unrelated consumer. -/
def c3Arena : Arena :=
  [ { opcode := SPVOp.OpVariable, id := 1, isVar := true },
    { opcode := SPVOp.OpLoad, id := 2, op := some { arguments := [0] } },
    { opcode := SPVOp.OpOther 0, id := 3, op := some { arguments := [1] } } ]

def c3Func : FunctionS := { blocks := [], localVars := [] }

theorem c3_inline_gate_witness :
    (initAnn c3Arena).cx 1 <
      (if (instrAt c3Arena 2).opcode = SPVOp.OpCompositeConstruct
       then 2 else 3)
    ∧ (((initAnn c3Arena).args 1).length ≤ 2 ∨
       (instrAt c3Arena 1).opcode = SPVOp.OpAccessChain ∨
       (instrAt c3Arena 1).opcode = SPVOp.OpSelect ∨
       (instrAt c3Arena 1).opcode = SPVOp.OpCompositeConstruct) :=
  c3_inline_gate c3Arena (initAnn c3Arena) c3Func 2 0 1 { arguments := [0] }
    (by decide) (by decide)

/-- The function of the C4 counterexample: a single `Store v, c` of a
constant into a local variable. -/
def c4Arena : Arena :=
  [ { opcode := SPVOp.OpVariable, id := 1, isVar := true },
    { opcode := SPVOp.OpConstant, id := 2 },
    { opcode := SPVOp.OpStore, op := some { arguments := [0, 1] } },
    { opcode := SPVOp.OpReturn } ]

def c4Func : FunctionS :=
  { blocks := [ { label := 4, instructions := [2], exitFlow := some 3 } ],
    localVars := [0] }

/-- **C4 (counterexample).** After the inliner runs over `Store v, c`, bit 0
of the store's `inlineArgs` *is* set: the destination argument is folded
(it is a non-operation, so the gate passes unconditionally). -/
theorem c4_store_dest_folded :
    ((runInliner c4Arena c4Func (initAnn c4Arena)).ann.ia 2) &&& 1 = 1
    ∧ (runInliner c4Arena c4Func (initAnn c4Arena)).ann.ia 2 = 3 := by
  exact ⟨by decide, by decide⟩

/-- **C4 (amended).** The destination argument of a `Store` (position 0) is
exempt from the *purity check*, not from folding: the fold gate for a
Store's position-0 argument never consults `IsUnmodified` and passes
exactly when the complexity/width checks pass (always so for a
non-operation destination). -/
theorem c4_store_dest_no_purity (arena : Arena) (ann : Ann) (func : FunctionS)
    (instrIdx argIdx : Nat)
    (hstore : (instrAt arena instrIdx).opcode = SPVOp.OpStore) :
    argFoldGate arena ann func instrIdx 0 argIdx =
      (match (instrAt arena argIdx).op with
       | none => true
       | some _ =>
         if ann.cx argIdx ≥ NO_INLINE_COMPLEXITY ∨
             ((ann.args argIdx).length > 2 ∧
              (instrAt arena argIdx).opcode ≠ SPVOp.OpAccessChain ∧
              (instrAt arena argIdx).opcode ≠ SPVOp.OpSelect ∧
              (instrAt arena argIdx).opcode ≠ SPVOp.OpCompositeConstruct)
         then false else true) := by
  unfold argFoldGate
  cases hop : (instrAt arena argIdx).op with
  | none => rfl
  | some o =>
    simp only
    have hcc : ¬ (instrAt arena instrIdx).opcode = SPVOp.OpCompositeConstruct := by
      rw [hstore]
      intro h
      exact SPVOp.noConfusion h
    rw [if_neg hcc]
    by_cases h1 : ann.cx argIdx ≥ NO_INLINE_COMPLEXITY ∨
        ((ann.args argIdx).length > 2 ∧
         (instrAt arena argIdx).opcode ≠ SPVOp.OpAccessChain ∧
         (instrAt arena argIdx).opcode ≠ SPVOp.OpSelect ∧
         (instrAt arena argIdx).opcode ≠ SPVOp.OpCompositeConstruct)
    · rw [if_pos h1, if_pos h1]
    · rw [if_neg h1, if_neg h1]
      rw [if_neg ?_]
      intro hand
      rcases hand.1 with h | h
      · exact h hstore
      · omega

/-- Witness for C4 (amended) at the counterexample's store and destination. -/
theorem c4_no_purity_witness :
    argFoldGate c4Arena (initAnn c4Arena) c4Func 2 0 0 =
      (match (instrAt c4Arena 0).op with
       | none => true
       | some _ =>
         if (initAnn c4Arena).cx 0 ≥ NO_INLINE_COMPLEXITY ∨
             (((initAnn c4Arena).args 0).length > 2 ∧
              (instrAt c4Arena 0).opcode ≠ SPVOp.OpAccessChain ∧
              (instrAt c4Arena 0).opcode ≠ SPVOp.OpSelect ∧
              (instrAt c4Arena 0).opcode ≠ SPVOp.OpCompositeConstruct)
         then false else true) :=
  c4_store_dest_no_purity c4Arena (initAnn c4Arena) c4Func 2 0 (by decide)

/-- The function of the C9 counterexample:
```
%t = OpLoad %g            ; arena 2
OpStore %param, %t        ; arena 3   (storeBefore)
%x = OpIAdd %t, %t        ; arena 4   (a second use of %t)
OpFunctionCall f(%param)  ; arena 5
OpReturn                  ; arena 6
```
The first run elides the store as an in-parameter and rewrites the call
argument to `%t`; in the second run the scan finds `%t` used by the add,
aborts the elision, and the store stays in the emit list. -/
def c9Arena : Arena :=
  [ { opcode := SPVOp.OpVariable, id := 100, isVar := true },
    { opcode := SPVOp.OpVariable, id := 101, isVar := true },
    { opcode := SPVOp.OpLoad, id := 102, op := some { arguments := [0] } },
    { opcode := SPVOp.OpStore, op := some { arguments := [1, 2] } },
    { opcode := SPVOp.OpOther 0, id := 103, op := some { arguments := [2, 2] } },
    { opcode := SPVOp.OpFunctionCall, id := 104,
      op := some { arguments := [1], funcCall := 7 } },
    { opcode := SPVOp.OpReturn } ]

def c9Func : FunctionS :=
  { blocks := [ { label := 8, instructions := [2, 3, 4, 5], exitFlow := some 6 } ],
    localVars := [1] }

/-- **C9 (counterexample).** The inliner is not idempotent: running it twice
over this function emits the `OpStore` (arena index 3) that the first run's
call-parameter elision removed, so the emitted instruction lists differ. -/
theorem c9_inliner_not_idempotent :
    (runInliner c9Arena c9Func (initAnn c9Arena)).funcops = [4, 5, 6]
    ∧ (runInliner c9Arena c9Func
        (runInliner c9Arena c9Func (initAnn c9Arena)).ann).funcops = [3, 4, 5, 6]
    ∧ (runInliner c9Arena c9Func
          (runInliner c9Arena c9Func (initAnn c9Arena)).ann).funcops ≠
        (runInliner c9Arena c9Func (initAnn c9Arena)).funcops := by
  refine ⟨by decide, by decide, by decide⟩

/-- Witness for C2 at a concrete accepted buffer and module. -/
theorem c2_getbyid_witness :
    (ParseSPIRV 99 [0x07230203, 99, 0, 3, 0]
        [{ opcode := SPVOp.OpLabel, resultId := some 1 }]).ids.length = 3
    ∧ (∀ (m : SPVModuleC) (k : Nat), k < m.ids.length →
        (∀ i, m.ids.getD k none = some i → GetByID m k = (m, i))
        ∧ (m.ids.getD k none = none →
            (GetByID m k).2.opcode = SPVOp.OpUnknown
            ∧ (GetByID m k).2.id = k
            ∧ (GetByID m k).1.ids.getD k none = some ((GetByID m k).2))) :=
  c2_getbyid_total 99 [0x07230203, 99, 0, 3, 0]
    [{ opcode := SPVOp.OpLabel, resultId := some 1 }] (by decide) (by decide)

/-!
### Idempotence analysis of the inliner

The second `Disassemble` run starts from the annotations the first run
left behind.  The lemmas below track how the two runs relate step by
step.
-/

theorem orIa_args (a : Ann) (i v : Nat) : (a.orIa i v).args = a.args := rfl

theorem orIa_cx (a : Ann) (i v : Nat) : (a.orIa i v).cx = a.cx := rfl

theorem orIa_ia_self (a : Ann) (i v : Nat) :
    (a.orIa i v).ia i = a.ia i ||| v := by
  simp [Ann.orIa]

theorem orIa_ia_ne (a : Ann) (i v r : Nat) (h : r ≠ i) :
    (a.orIa i v).ia r = a.ia r := by
  simp [Ann.orIa, Function.update_noteq h]

theorem orIa_orIa (a : Ann) (i v w : Nat) :
    (a.orIa i v).orIa i w = a.orIa i (v ||| w) := by
  unfold Ann.orIa
  simp [Function.update_idem, Function.update_same, Nat.or_assoc]

theorem orIa_zero (a : Ann) (i : Nat) : a.orIa i 0 = a := by
  unfold Ann.orIa
  simp

theorem setCx_args (a : Ann) (i : Nat) (v : Int) :
    (a.setCx i v).args = a.args := rfl

theorem setCx_ia (a : Ann) (i : Nat) (v : Int) :
    (a.setCx i v).ia = a.ia := rfl

theorem setCx_cx_self (a : Ann) (i : Nat) (v : Int) :
    (a.setCx i v).cx i = v := by
  simp [Ann.setCx]

theorem setCx_cx_ne (a : Ann) (i : Nat) (v : Int) (r : Nat) (h : r ≠ i) :
    (a.setCx i v).cx r = a.cx r := by
  simp [Ann.setCx, Function.update_noteq h]

theorem setArgs_cx (a : Ann) (i : Nat) (v : List Nat) :
    (a.setArgs i v).cx = a.cx := rfl

theorem setArgs_ia (a : Ann) (i : Nat) (v : List Nat) :
    (a.setArgs i v).ia = a.ia := rfl

theorem setArgs_args_ne (a : Ann) (i : Nat) (v : List Nat) (r : Nat)
    (h : r ≠ i) : (a.setArgs i v).args r = a.args r := by
  simp [Ann.setArgs, Function.update_noteq h]

/-- Re-`or`ing already present bits is a no-op. -/
theorem or_or_self (x m : Nat) : (x ||| m) ||| m = x ||| m := by
  rw [Nat.or_assoc, Nat.or_self]

/-- Re-`or`ing two already present masks is a no-op. -/
theorem or_or_absorb (x m d : Nat) :
    ((x ||| m ||| d) ||| m) ||| d = x ||| m ||| d := by
  apply Nat.eq_of_testBit_eq
  intro k
  simp only [Nat.testBit_or]
  cases x.testBit k <;> cases m.testBit k <;> cases d.testBit k <;> rfl

/-- The folding gate reads only the argument lists, the argument's
complexity, and immutable structure. -/
theorem argFoldGate_congr (arena : Arena) (func : FunctionS) (ann1 ann2 : Ann)
    (instrIdx a argIdx : Nat)
    (hargs : ann2.args = ann1.args) (hcx : ann2.cx argIdx = ann1.cx argIdx) :
    argFoldGate arena ann2 func instrIdx a argIdx =
      argFoldGate arena ann1 func instrIdx a argIdx := by
  unfold argFoldGate
  rw [hargs, hcx]

/-- Unrolling of the folding loop: it only ever `or`s bits into
`inlineArgs instrIdx`, and its decisions agree between two annotation
states with the same arguments and the same complexities on the
instruction's operands. -/
theorem argLoop_fold_shape (arena : Arena) (func : FunctionS) (instrIdx : Nat)
    (ann1 ann2 : Ann)
    (hargs : ann2.args = ann1.args)
    (hcx : ∀ r ∈ ann1.args instrIdx, ann2.cx r = ann1.cx r)
    (L : List Nat) :
    (∀ a ∈ L, a < (ann1.args instrIdx).length) →
    ∀ (m : Nat) (f : List Nat) (c : Int),
    ∃ M f2 c2,
      L.foldl (argLoopStep arena func instrIdx) (ann1.orIa instrIdx m, f, c) =
        (ann1.orIa instrIdx M, f2, c2) ∧
      L.foldl (argLoopStep arena func instrIdx) (ann2.orIa instrIdx m, f, c) =
        (ann2.orIa instrIdx M, f2, c2) := by
  induction L with
  | nil => intro _ m f c; exact ⟨m, f, c, rfl, rfl⟩
  | cons a L ih =>
    intro hL m f c
    have ha : a < (ann1.args instrIdx).length := hL a (by simp)
    have hg : (ann1.args instrIdx).getD a 0 ∈ ann1.args instrIdx := by
      rw [List.getD_eq_getElem _ _ ha]
      exact List.getElem_mem _
    have hs1 : argLoopStep arena func instrIdx (ann1.orIa instrIdx m, f, c) a =
        (if argFoldGate arena ann1 func instrIdx a ((ann1.args instrIdx).getD a 0)
         then ((ann1.orIa instrIdx m).orIa instrIdx (1 <<< a),
               f.erase ((ann1.args instrIdx).getD a 0),
               match (instrAt arena ((ann1.args instrIdx).getD a 0)).op with
               | some _ => max (ann1.cx ((ann1.args instrIdx).getD a 0)) c
               | none => c)
         else (ann1.orIa instrIdx m, f, c)) := by
      rfl
    have hs2 : argLoopStep arena func instrIdx (ann2.orIa instrIdx m, f, c) a =
        (if argFoldGate arena ann1 func instrIdx a ((ann1.args instrIdx).getD a 0)
         then ((ann2.orIa instrIdx m).orIa instrIdx (1 <<< a),
               f.erase ((ann1.args instrIdx).getD a 0),
               match (instrAt arena ((ann1.args instrIdx).getD a 0)).op with
               | some _ => max (ann1.cx ((ann1.args instrIdx).getD a 0)) c
               | none => c)
         else (ann2.orIa instrIdx m, f, c)) := by
      show (if argFoldGate arena (ann2.orIa instrIdx m) func instrIdx a
              ((ann2.args instrIdx).getD a 0) = true then
            ((ann2.orIa instrIdx m).orIa instrIdx (1 <<< a),
             f.erase ((ann2.args instrIdx).getD a 0),
             match (instrAt arena ((ann2.args instrIdx).getD a 0)).op with
             | some _ => max (ann2.cx ((ann2.args instrIdx).getD a 0)) c
             | none => c)
          else (ann2.orIa instrIdx m, f, c)) = _
      rw [hargs]
      rw [argFoldGate_congr arena func ann1 (ann2.orIa instrIdx m) instrIdx a
        ((ann1.args instrIdx).getD a 0) hargs (hcx _ hg)]
      rw [hcx _ hg]
    by_cases hgate :
        argFoldGate arena ann1 func instrIdx a ((ann1.args instrIdx).getD a 0) = true
    · obtain ⟨M, f2, c2, H1, H2⟩ := ih (fun x hx => hL x (by simp [hx]))
        (m ||| (1 <<< a)) (f.erase ((ann1.args instrIdx).getD a 0))
        (match (instrAt arena ((ann1.args instrIdx).getD a 0)).op with
         | some _ => max (ann1.cx ((ann1.args instrIdx).getD a 0)) c
         | none => c)
      refine ⟨M, f2, c2, ?_, ?_⟩
      · rw [List.foldl_cons, hs1, if_pos hgate, orIa_orIa]; exact H1
      · rw [List.foldl_cons, hs2, if_pos hgate, orIa_orIa]; exact H2
    · obtain ⟨M, f2, c2, H1, H2⟩ := ih (fun x hx => hL x (by simp [hx])) m f c
      refine ⟨M, f2, c2, ?_, ?_⟩
      · rw [List.foldl_cons, hs1, if_neg hgate]; exact H1
      · rw [List.foldl_cons, hs2, if_neg hgate]; exact H2

/-- The whole folding loop, as `or`ing one mask `M`, an emit-list
transformation and a `maxcomplex` that agree between the two runs. -/
theorem argLoop_congr (arena : Arena) (func : FunctionS) (ann1 ann2 : Ann)
    (f : List Nat) (instrIdx : Nat)
    (hargs : ann2.args = ann1.args)
    (hcx : ∀ r ∈ ann1.args instrIdx, ann2.cx r = ann1.cx r) :
    ∃ M f2 c2,
      argLoop arena func ann1 f instrIdx = (ann1.orIa instrIdx M, f2, c2) ∧
      argLoop arena func ann2 f instrIdx = (ann2.orIa instrIdx M, f2, c2) := by
  obtain ⟨M, f2, c2, H1, H2⟩ := argLoop_fold_shape arena func instrIdx ann1 ann2
    hargs hcx (List.range (ann1.args instrIdx).length)
    (fun a ha => List.mem_range.mp ha) 0 f 0
  rw [orIa_zero] at H1 H2
  refine ⟨M, f2, c2, H1, ?_⟩
  unfold argLoop
  rw [hargs]
  exact H2

/-- When the single-store/single-load elision does not fire, it leaves
everything unchanged. -/
theorem loadElide_noelide (arena : Arena) (func : FunctionS) (ann : Ann)
    (f v : List Nat) (e : Nat)
    (h : (loadElide arena func ann f v e).2.2.2 = 0) :
    loadElide arena func ann f v e = (ann, f, v, 0) := by
  unfold loadElide at h ⊢
  split at h
  · dsimp only at h
    split at h
    · split at h
      · split at h
        · simp_all
        · simp_all
      · simp_all
    · simp_all
  · simp_all

/-- Whether the single-store/single-load elision fires depends only on the
argument lists. -/
theorem loadElide_delta_congr (arena : Arena) (func : FunctionS)
    (ann1 ann2 : Ann) (f v : List Nat) (e : Nat)
    (hargs : ann2.args = ann1.args) :
    (loadElide arena func ann2 f v e).2.2.2 =
      (loadElide arena func ann1 f v e).2.2.2 := by
  unfold loadElide
  simp only [hargs]
  split
  · split
    · split
      · split
        · simp_all
        · simp_all
      · simp_all
    · simp_all
  · simp_all

/-- The adjacent store-of-temporary merge: its decision depends only on the
argument lists and the emit list; its effect is an optional complexity
update (same value for both runs) and `or`ing bit 1, and it fires only on a
`Store` or `CompositeInsert`. -/
theorem adjacentMerge_congr (arena : Arena) (ann1 ann2 : Ann) (f : List Nat)
    (e : Nat)
    (hargs : ann2.args = ann1.args)
    (hcxe : ann2.cx e = ann1.cx e)
    (hcx1 : ann2.cx ((ann1.args e).getD 1 0) = ann1.cx ((ann1.args e).getD 1 0)) :
    ∃ (upd : Bool) (v : Int) (D : Nat) (f2 : List Nat),
      (D = 0 ∨ (D = 2 ∧ ((instrAt arena e).opcode = SPVOp.OpStore ∨
        (instrAt arena e).opcode = SPVOp.OpCompositeInsert))) ∧
      adjacentMerge arena ann1 f e =
        ((if upd then ann1.setCx e v else ann1).orIa e D, f2) ∧
      adjacentMerge arena ann2 f e =
        ((if upd then ann2.setCx e v else ann2).orIa e D, f2) := by
  unfold adjacentMerge
  by_cases h0 : ((instrAt arena e).opcode = SPVOp.OpStore ∨
      (instrAt arena e).opcode = SPVOp.OpCompositeInsert) ∧ f.length > 1
  · rw [if_pos h0, if_pos h0]
    simp only [hargs]
    by_cases h1 : (ann1.args e).getD 1 0 = f.getD (f.length - 2) 0
    · rw [if_pos h1, if_pos h1]
      cases hop : (instrAt arena ((ann1.args e).getD 1 0)).op with
      | some o =>
        refine ⟨true, max (ann1.cx e) (ann1.cx ((ann1.args e).getD 1 0)), 2,
          f.erase ((ann1.args e).getD 1 0), Or.inr ⟨rfl, h0.1⟩, ?_, ?_⟩
        · simp [hop]
        · have hcx1' : ann2.cx ((ann1.args e)[1]?.getD 0) =
              ann1.cx ((ann1.args e)[1]?.getD 0) := by simpa using hcx1
          simp [hop, hcxe, hcx1']
      | none =>
        refine ⟨false, 0, 2, f.erase ((ann1.args e).getD 1 0),
          Or.inr ⟨rfl, h0.1⟩, ?_, ?_⟩
        · simp [hop]
        · simp [hop]
    · rw [if_neg h1, if_neg h1]
      exact ⟨false, 0, 0, f, Or.inl rfl, by simp [orIa_zero], by simp [orIa_zero]⟩
  · rw [if_neg h0, if_neg h0]
    exact ⟨false, 0, 0, f, Or.inl rfl, by simp [orIa_zero], by simp [orIa_zero]⟩

/-- The pre-call usage scan reads only the argument lists. -/
theorem callScanBeforeStep_congr (arena : Arena) (ann1 ann2 : Ann)
    (hargs : ann2.args = ann1.args) :
    callScanBeforeStep arena ann2 = callScanBeforeStep arena ann1 := by
  funext argId st j
  unfold callScanBeforeStep
  rw [hargs]

/-- The post-call usage scan reads only the argument lists. -/
theorem callScanAfterStep_congr (arena : Arena) (ann1 ann2 : Ann)
    (hargs : ann2.args = ann1.args) :
    callScanAfterStep arena ann2 = callScanAfterStep arena ann1 := by
  funext argId st jp
  unfold callScanAfterStep
  rw [hargs]

/-- The store-of-`loadAfter` scan reads only the argument lists. -/
theorem callScanUseStep_congr (arena : Arena) (ann1 ann2 : Ann)
    (hargs : ann2.args = ann1.args) :
    callScanUseStep arena ann2 = callScanUseStep arena ann1 := by
  funext loadAfter st j
  unfold callScanUseStep
  rw [hargs]

/-- The call-parameter elision never decreases `elided`. -/
theorem callElideArg_elided_mono (arena : Arena) (func : FunctionS)
    (bIs : List Nat) (i : Nat) (st : PassState) (e a : Nat) :
    st.elided ≤ (callElideArg arena func bIs i st e a).elided := by
  unfold callElideArg
  dsimp only
  repeat' split
  all_goals try (rename_i heq; split at heq)
  all_goals try simp_all
  all_goals (rw [← heq.2]; simp)

/-- A call-argument step that does not elide leaves the state unchanged, up
to setting the crash flag, and makes the same decision when started from
annotations with the same argument lists. -/
theorem callElideArg_congr (arena : Arena) (func : FunctionS) (bIs : List Nat)
    (i : Nat) (s1 s2 : PassState) (e a : Nat)
    (hargs : s2.ann.args = s1.ann.args)
    (hel1 : (callElideArg arena func bIs i s1 e a).elided = s1.elided) :
    (callElideArg arena func bIs i s1 e a = s1 ∧
     callElideArg arena func bIs i s2 e a = s2) ∨
    (callElideArg arena func bIs i s1 e a = { s1 with crashed := true } ∧
     callElideArg arena func bIs i s2 e a = { s2 with crashed := true }) := by
  unfold callElideArg at hel1 ⊢
  simp only [hargs] at hel1 ⊢
  rw [callScanBeforeStep_congr arena s1.ann s2.ann hargs,
      callScanAfterStep_congr arena s1.ann s2.ann hargs,
      callScanUseStep_congr arena s1.ann s2.ann hargs]
  repeat' split at hel1
  all_goals try (rename_i heq; split at heq)
  all_goals try simp_all
  -- the inout pre-store check fails: no elision, both runs keep the state
  · rw [if_neg (fun hcc => heq hcc.1 hcc.2)]
    left
    rfl
  -- the inout elision fired in run 1, contradicting hel1
  · rw [← heq.2] at hel1
    simp at hel1

/-- Folding the call-argument elision over all arguments never decreases
`elided`. -/
theorem callFold_elided_mono (arena : Arena) (func : FunctionS) (bIs : List Nat)
    (i e : Nat) (L : List Nat) :
    ∀ (st : PassState),
    st.elided ≤ (L.foldl (fun s a => callElideArg arena func bIs i s e a) st).elided := by
  induction L with
  | nil => intro st; exact Nat.le_refl _
  | cons a L ih =>
    intro st
    simp only [List.foldl_cons]
    exact le_trans (callElideArg_elided_mono arena func bIs i st e a) (ih _)

/-- An elision-free pass over the call arguments preserves the whole state
(up to the crash flag, which evolves identically in both runs). -/
theorem callFold_congr (arena : Arena) (func : FunctionS) (bIs : List Nat)
    (i e : Nat) (L : List Nat) :
    ∀ (s1c s2c : PassState),
    s2c.ann.args = s1c.ann.args →
    s2c.crashed = s1c.crashed →
    (L.foldl (fun s a => callElideArg arena func bIs i s e a) s1c).elided = s1c.elided →
    (L.foldl (fun s a => callElideArg arena func bIs i s e a) s1c).ann = s1c.ann ∧
    (L.foldl (fun s a => callElideArg arena func bIs i s e a) s1c).funcops = s1c.funcops ∧
    (L.foldl (fun s a => callElideArg arena func bIs i s e a) s1c).vars = s1c.vars ∧
    (L.foldl (fun s a => callElideArg arena func bIs i s e a) s1c).ignore = s1c.ignore ∧
    (L.foldl (fun s a => callElideArg arena func bIs i s e a) s2c).ann = s2c.ann ∧
    (L.foldl (fun s a => callElideArg arena func bIs i s e a) s2c).funcops = s2c.funcops ∧
    (L.foldl (fun s a => callElideArg arena func bIs i s e a) s2c).vars = s2c.vars ∧
    (L.foldl (fun s a => callElideArg arena func bIs i s e a) s2c).ignore = s2c.ignore ∧
    (L.foldl (fun s a => callElideArg arena func bIs i s e a) s2c).elided = s2c.elided ∧
    (L.foldl (fun s a => callElideArg arena func bIs i s e a) s2c).crashed =
      (L.foldl (fun s a => callElideArg arena func bIs i s e a) s1c).crashed := by
  induction L with
  | nil =>
    intro s1c s2c _ hcr _
    exact ⟨rfl, rfl, rfl, rfl, rfl, rfl, rfl, rfl, rfl, hcr⟩
  | cons a L ih =>
    intro s1c s2c hargs hcr hel
    simp only [List.foldl_cons] at hel ⊢
    have hel_step : (callElideArg arena func bIs i s1c e a).elided = s1c.elided := by
      have h1 := callElideArg_elided_mono arena func bIs i s1c e a
      have h2 := callFold_elided_mono arena func bIs i e L
        (callElideArg arena func bIs i s1c e a)
      omega
    rcases callElideArg_congr arena func bIs i s1c s2c e a hargs hel_step with
      ⟨H1, H2⟩ | ⟨H1, H2⟩
    · rw [H1] at hel ⊢
      rw [H2]
      exact ih s1c s2c hargs hcr hel
    · rw [H1] at hel ⊢
      rw [H2]
      have := ih { s1c with crashed := true } { s2c with crashed := true } hargs rfl hel
      simpa using this

/-- The folding loop never writes a complexity. -/
theorem argLoop_cx (arena : Arena) (func : FunctionS) (ann : Ann)
    (f : List Nat) (e : Nat) : (argLoop arena func ann f e).1.cx = ann.cx := by
  obtain ⟨M, f2, c2, H1, _⟩ := argLoop_congr arena func ann ann f e rfl
    (fun _ _ => rfl)
  rw [H1]
  rfl

/-- The folding loop never rewrites an argument list. -/
theorem argLoop_args (arena : Arena) (func : FunctionS) (ann : Ann)
    (f : List Nat) (e : Nat) : (argLoop arena func ann f e).1.args = ann.args := by
  obtain ⟨M, f2, c2, H1, _⟩ := argLoop_congr arena func ann ann f e rfl
    (fun _ _ => rfl)
  rw [H1]
  rfl

/-- The folding loop only writes `inlineArgs` of its own instruction. -/
theorem argLoop_ia_ne (arena : Arena) (func : FunctionS) (ann : Ann)
    (f : List Nat) (e r : Nat) (hr : r ≠ e) :
    (argLoop arena func ann f e).1.ia r = ann.ia r := by
  obtain ⟨M, f2, c2, H1, _⟩ := argLoop_congr arena func ann ann f e rfl
    (fun _ _ => rfl)
  rw [H1]
  exact orIa_ia_ne ann e M r hr

/-- The load elision never writes `inlineArgs`. -/
theorem loadElide_ia (arena : Arena) (func : FunctionS) (ann : Ann)
    (f v : List Nat) (e : Nat) : (loadElide arena func ann f v e).1.ia = ann.ia := by
  unfold loadElide
  split
  · dsimp only
    repeat' split
    all_goals rfl
  · rfl

/-- The load elision writes complexities only at its own instruction. -/
theorem loadElide_cx_frame (arena : Arena) (func : FunctionS) (ann : Ann)
    (f v : List Nat) (e r : Nat) (hr : r ≠ e) :
    (loadElide arena func ann f v e).1.cx r = ann.cx r := by
  unfold loadElide
  split
  · dsimp only
    repeat' split
    all_goals simp [Ann.setCx, Ann.setArgs, Function.update_noteq hr]
  · simp [Ann.setCx, Ann.setArgs, Function.update_noteq hr]

/-- The load elision rewrites arguments only at its own instruction. -/
theorem loadElide_args_frame (arena : Arena) (func : FunctionS) (ann : Ann)
    (f v : List Nat) (e r : Nat) (hr : r ≠ e) :
    (loadElide arena func ann f v e).1.args r = ann.args r := by
  unfold loadElide
  split
  · dsimp only
    repeat' split
    all_goals simp [Ann.setCx, Ann.setArgs, Function.update_noteq hr]
  · simp [Ann.setCx, Ann.setArgs, Function.update_noteq hr]

/-- The adjacent merge never rewrites an argument list. -/
theorem adjacentMerge_args (arena : Arena) (ann : Ann) (f : List Nat)
    (e : Nat) : (adjacentMerge arena ann f e).1.args = ann.args := by
  unfold adjacentMerge
  split
  · split
    · dsimp only
      split
      all_goals rfl
    · rfl
  · rfl

/-- The adjacent merge writes complexities only at its own instruction. -/
theorem adjacentMerge_cx_frame (arena : Arena) (ann : Ann) (f : List Nat)
    (e r : Nat) (hr : r ≠ e) :
    (adjacentMerge arena ann f e).1.cx r = ann.cx r := by
  unfold adjacentMerge
  split
  · split
    · dsimp only
      split
      all_goals simp [Ann.setCx, Ann.orIa, Function.update_noteq hr]
    · simp [Ann.setCx, Ann.orIa, Function.update_noteq hr]
  · simp [Ann.setCx, Ann.orIa, Function.update_noteq hr]

/-- The adjacent merge writes `inlineArgs` only at its own instruction. -/
theorem adjacentMerge_ia_frame (arena : Arena) (ann : Ann) (f : List Nat)
    (e r : Nat) (hr : r ≠ e) :
    (adjacentMerge arena ann f e).1.ia r = ann.ia r := by
  unfold adjacentMerge
  split
  · split
    · dsimp only
      split
      all_goals simp [Ann.setCx, Ann.orIa, Function.update_noteq hr]
    · simp [Ann.setCx, Ann.orIa, Function.update_noteq hr]
  · simp [Ann.setCx, Ann.orIa, Function.update_noteq hr]

/-- The call-argument elision never writes complexities. -/
theorem callElideArg_cx (arena : Arena) (func : FunctionS) (bIs : List Nat)
    (i : Nat) (st : PassState) (e a : Nat) :
    (callElideArg arena func bIs i st e a).ann.cx = st.ann.cx := by
  unfold callElideArg
  dsimp only
  repeat' split
  all_goals try (rename_i heq; split at heq)
  all_goals try simp_all [Ann.setArgs, Function.update_noteq]
  all_goals rw [← heq.2]

/-- The call-argument elision never writes `inlineArgs`. -/
theorem callElideArg_ia (arena : Arena) (func : FunctionS) (bIs : List Nat)
    (i : Nat) (st : PassState) (e a : Nat) :
    (callElideArg arena func bIs i st e a).ann.ia = st.ann.ia := by
  unfold callElideArg
  dsimp only
  repeat' split
  all_goals try (rename_i heq; split at heq)
  all_goals try simp_all [Ann.setArgs, Function.update_noteq]
  all_goals rw [← heq.2]

/-- The call-argument elision rewrites arguments only at its own
instruction. -/
theorem callElideArg_args_frame (arena : Arena) (func : FunctionS)
    (bIs : List Nat) (i : Nat) (st : PassState) (e a r : Nat) (hr : r ≠ e) :
    (callElideArg arena func bIs i st e a).ann.args r = st.ann.args r := by
  unfold callElideArg
  dsimp only
  repeat' split
  all_goals try (rename_i heq; split at heq)
  all_goals try simp_all [Ann.setArgs, Function.update_noteq]
  all_goals rw [← heq.2]

/-- The call-argument fold never writes complexities. -/
theorem callFold_cx (arena : Arena) (func : FunctionS) (bIs : List Nat)
    (i e : Nat) (L : List Nat) :
    ∀ (st : PassState),
    (L.foldl (fun s a => callElideArg arena func bIs i s e a) st).ann.cx =
      st.ann.cx := by
  induction L with
  | nil => intro st; rfl
  | cons a L ih =>
    intro st
    simp only [List.foldl_cons]
    rw [ih, callElideArg_cx]

/-- The call-argument fold never writes `inlineArgs`. -/
theorem callFold_ia (arena : Arena) (func : FunctionS) (bIs : List Nat)
    (i e : Nat) (L : List Nat) :
    ∀ (st : PassState),
    (L.foldl (fun s a => callElideArg arena func bIs i s e a) st).ann.ia =
      st.ann.ia := by
  induction L with
  | nil => intro st; rfl
  | cons a L ih =>
    intro st
    simp only [List.foldl_cons]
    rw [ih, callElideArg_ia]

/-- The call-argument fold rewrites arguments only at its own
instruction. -/
theorem callFold_args_frame (arena : Arena) (func : FunctionS) (bIs : List Nat)
    (i e : Nat) (L : List Nat) (r : Nat) (hr : r ≠ e) :
    ∀ (st : PassState),
    (L.foldl (fun s a => callElideArg arena func bIs i s e a) st).ann.args r =
      st.ann.args r := by
  induction L with
  | nil => intro st; rfl
  | cons a L ih =>
    intro st
    simp only [List.foldl_cons]
    rw [ih, callElideArg_args_frame arena func bIs i st e a r hr]

/-- The instruction tail never decreases `elided`. -/
theorem coreTail_elided_mono (arena : Arena) (func : FunctionS)
    (bIs : List Nat) (i : Nat) (base : PassState) (A : Ann) (f : List Nat)
    (e : Nat) :
    base.elided ≤ (coreTail arena func bIs i base A f e).elided := by
  unfold coreTail
  dsimp only
  split
  · exact le_trans (by simp) (callFold_elided_mono arena func bIs i _ _ _)
  · simp

/-- The instruction tail writes annotations only at its own arena index. -/
theorem coreTail_frame (arena : Arena) (func : FunctionS) (bIs : List Nat)
    (i : Nat) (base : PassState) (A : Ann) (f : List Nat) (e : Nat) (r : Nat)
    (hr : r ≠ e) :
    (coreTail arena func bIs i base A f e).ann.cx r = A.cx r ∧
    (coreTail arena func bIs i base A f e).ann.ia r = A.ia r ∧
    (coreTail arena func bIs i base A f e).ann.args r = A.args r := by
  unfold coreTail
  dsimp only
  split
  all_goals refine ⟨?_, ?_, ?_⟩
  all_goals
    simp [hr, callFold_cx, callFold_ia, callFold_args_frame,
      adjacentMerge_cx_frame, adjacentMerge_ia_frame, adjacentMerge_args,
      loadElide_cx_frame, loadElide_ia, loadElide_args_frame]

/-- The instruction-core never decreases `elided`. -/
theorem procInstrCore_elided_mono (arena : Arena) (func : FunctionS)
    (bIs : List Nat) (i : Nat) (st : PassState) (e : Nat) :
    st.elided ≤ (procInstrCore arena func bIs i st e).elided := by
  unfold procInstrCore
  split
  · exact le_refl _
  · exact coreTail_elided_mono arena func bIs i st _ _ e

/-- Processing one instruction never decreases `elided`. -/
theorem procInstr_elided_mono (arena : Arena) (func : FunctionS)
    (bIs : List Nat) (i : Nat) (st : PassState) :
    st.elided ≤ (procInstr arena func bIs i st).elided := by
  unfold procInstr
  dsimp only
  exact le_trans (by split <;> simp)
    (procInstrCore_elided_mono arena func bIs i _ (bIs.getD i 0))

/-- The instruction-core writes annotations only at its own arena index. -/
theorem procInstrCore_frame (arena : Arena) (func : FunctionS) (bIs : List Nat)
    (i : Nat) (st : PassState) (e : Nat) (r : Nat) (hr : r ≠ e) :
    (procInstrCore arena func bIs i st e).ann.cx r = st.ann.cx r ∧
    (procInstrCore arena func bIs i st e).ann.ia r = st.ann.ia r ∧
    (procInstrCore arena func bIs i st e).ann.args r = st.ann.args r := by
  unfold procInstrCore
  split
  · exact ⟨rfl, rfl, rfl⟩
  · refine ⟨?_, ?_, ?_⟩
    · rw [(coreTail_frame arena func bIs i st _ _ e r hr).1]
      split <;> simp [hr, setCx_cx_ne, orIa_cx, argLoop_cx]
    · rw [(coreTail_frame arena func bIs i st _ _ e r hr).2.1]
      split <;> simp [hr, setCx_ia, orIa_ia_ne, argLoop_ia_ne]
    · rw [(coreTail_frame arena func bIs i st _ _ e r hr).2.2]
      split <;> simp [setCx_args, orIa_args, argLoop_args]

/-- Processing one instruction writes annotations only at that
instruction's arena index. -/
theorem procInstr_frame (arena : Arena) (func : FunctionS) (bIs : List Nat)
    (i : Nat) (st : PassState) (r : Nat) (hr : r ≠ bIs.getD i 0) :
    (procInstr arena func bIs i st).ann.cx r = st.ann.cx r ∧
    (procInstr arena func bIs i st).ann.ia r = st.ann.ia r ∧
    (procInstr arena func bIs i st).ann.args r = st.ann.args r := by
  unfold procInstr
  dsimp only
  have hig : (if st.ignore.contains (bIs.getD i 0) = true then st
      else { st with funcops := st.funcops ++ [bIs.getD i 0] }).ann = st.ann := by
    split <;> rfl
  generalize hst1 : (if st.ignore.contains (bIs.getD i 0) = true then st
      else { st with funcops := st.funcops ++ [bIs.getD i 0] }) = st1
  rw [hst1] at hig
  obtain ⟨h1, h2, h3⟩ := procInstrCore_frame arena func bIs i st1 (bIs.getD i 0) r hr
  rw [hig] at h1 h2 h3
  exact ⟨h1, h2, h3⟩

/-- The call-elision stage of one instruction: with no elisions in run 1,
it preserves everything on both runs (the crash flag evolves alike). -/
theorem callStage_congr (arena : Arena) (func : FunctionS) (bIs : List Nat)
    (i e : Nat) (u1 u2 : PassState)
    (hfo : u2.funcops = u1.funcops) (hva : u2.vars = u1.vars)
    (hig : u2.ignore = u1.ignore) (hcr : u2.crashed = u1.crashed)
    (hargs : u2.ann.args = u1.ann.args)
    (hel : (if (instrAt arena e).opcode = SPVOp.OpFunctionCall then
        (List.range (u1.ann.args e).length).foldl
          (fun s a => callElideArg arena func bIs i s e a) u1 else u1).elided =
      u1.elided) :
    (if (instrAt arena e).opcode = SPVOp.OpFunctionCall then
        (List.range (u2.ann.args e).length).foldl
          (fun s a => callElideArg arena func bIs i s e a) u2 else u2).funcops =
      (if (instrAt arena e).opcode = SPVOp.OpFunctionCall then
        (List.range (u1.ann.args e).length).foldl
          (fun s a => callElideArg arena func bIs i s e a) u1 else u1).funcops ∧
    (if (instrAt arena e).opcode = SPVOp.OpFunctionCall then
        (List.range (u2.ann.args e).length).foldl
          (fun s a => callElideArg arena func bIs i s e a) u2 else u2).vars =
      (if (instrAt arena e).opcode = SPVOp.OpFunctionCall then
        (List.range (u1.ann.args e).length).foldl
          (fun s a => callElideArg arena func bIs i s e a) u1 else u1).vars ∧
    (if (instrAt arena e).opcode = SPVOp.OpFunctionCall then
        (List.range (u2.ann.args e).length).foldl
          (fun s a => callElideArg arena func bIs i s e a) u2 else u2).ignore =
      (if (instrAt arena e).opcode = SPVOp.OpFunctionCall then
        (List.range (u1.ann.args e).length).foldl
          (fun s a => callElideArg arena func bIs i s e a) u1 else u1).ignore ∧
    (if (instrAt arena e).opcode = SPVOp.OpFunctionCall then
        (List.range (u2.ann.args e).length).foldl
          (fun s a => callElideArg arena func bIs i s e a) u2 else u2).crashed =
      (if (instrAt arena e).opcode = SPVOp.OpFunctionCall then
        (List.range (u1.ann.args e).length).foldl
          (fun s a => callElideArg arena func bIs i s e a) u1 else u1).crashed ∧
    (if (instrAt arena e).opcode = SPVOp.OpFunctionCall then
        (List.range (u2.ann.args e).length).foldl
          (fun s a => callElideArg arena func bIs i s e a) u2 else u2).elided =
      u2.elided ∧
    (if (instrAt arena e).opcode = SPVOp.OpFunctionCall then
        (List.range (u1.ann.args e).length).foldl
          (fun s a => callElideArg arena func bIs i s e a) u1 else u1).ann =
      u1.ann ∧
    (if (instrAt arena e).opcode = SPVOp.OpFunctionCall then
        (List.range (u2.ann.args e).length).foldl
          (fun s a => callElideArg arena func bIs i s e a) u2 else u2).ann =
      u2.ann := by
  by_cases hcall : (instrAt arena e).opcode = SPVOp.OpFunctionCall
  · simp only [if_pos hcall] at hel ⊢
    rw [hargs]
    obtain ⟨c1, c2', c3, c4, c5, c6, c7, c8, c9, c10⟩ :=
      callFold_congr arena func bIs i e (List.range (u1.ann.args e).length)
        u1 u2 hargs hcr hel
    exact ⟨c6.trans (hfo.trans c2'.symm), c7.trans (hva.trans c3.symm),
      c8.trans (hig.trans c4.symm), c10, c9, c1, c5⟩
  · simp only [if_neg hcall] at hel ⊢
    exact ⟨hfo, hva, hig, hcr, trivial, trivial, trivial⟩

/-- Another absorption: re-`or`ing an inner mask is a no-op. -/
theorem or_or_absorb' (x m d : Nat) :
    ((x ||| m) ||| d) ||| m = (x ||| m) ||| d := by
  apply Nat.eq_of_testBit_eq
  intro k
  simp only [Nat.testBit_or]
  cases x.testBit k <;> cases m.testBit k <;> cases d.testBit k <;> rfl

/-- The instruction tail either leaves `inlineArgs` of its instruction
unchanged, or `or`s bit 1 into it — the latter only on a `Store` or a
`CompositeInsert`. -/
theorem coreTail_ia_e (arena : Arena) (func : FunctionS) (bIs : List Nat)
    (i : Nat) (base : PassState) (A : Ann) (f : List Nat) (e : Nat) :
    (coreTail arena func bIs i base A f e).ann.ia e = A.ia e ∨
    ((coreTail arena func bIs i base A f e).ann.ia e = A.ia e ||| 2 ∧
     ((instrAt arena e).opcode = SPVOp.OpStore ∨
      (instrAt arena e).opcode = SPVOp.OpCompositeInsert)) := by
  unfold coreTail
  dsimp only
  have hfin : ∀ (u : PassState),
      (if (instrAt arena e).opcode = SPVOp.OpFunctionCall then
        (List.range (u.ann.args e).length).foldl
          (fun s a => callElideArg arena func bIs i s e a) u else u).ann.ia e =
      u.ann.ia e := by
    intro u
    split
    · rw [callFold_ia]
    · rfl
  rw [hfin]
  dsimp only
  unfold adjacentMerge
  split
  · rename_i hoc
    split
    · dsimp only
      split
      · exact Or.inr ⟨by simp [orIa_ia_self, setCx_ia, loadElide_ia], hoc.1⟩
      · exact Or.inr ⟨by simp [orIa_ia_self, loadElide_ia], hoc.1⟩
    · exact Or.inl (by simp [loadElide_ia])
  · exact Or.inl (by simp [loadElide_ia])

/-- The instruction tail, compared across the two runs: with no elision in
run 1, both runs transform the emit list, the variables and the ignore
list identically, run 2 performs no elision either, neither run rewrites
arguments, and run 2's final annotation at the instruction reproduces its
own input (`inlineArgs` bits were already present, the complexity is
recomputed to the same value). -/
theorem coreTail_congr (arena : Arena) (func : FunctionS) (bIs : List Nat)
    (i : Nat) (base1 base2 : PassState) (A1 A2 : Ann) (f : List Nat) (e : Nat)
    (hbfo : base2.funcops = base1.funcops)
    (hbva : base2.vars = base1.vars)
    (hbig : base2.ignore = base1.ignore)
    (hbcr : base2.crashed = base1.crashed)
    (hA2args : A2.args = A1.args)
    (hAcxe : A2.cx e = A1.cx e)
    (hAcxarg : A2.cx ((A1.args e).getD 1 0) = A1.cx ((A1.args e).getD 1 0))
    (hiaabs : A2.ia e = (coreTail arena func bIs i base1 A1 f e).ann.ia e)
    (hel1 : (coreTail arena func bIs i base1 A1 f e).elided = base1.elided) :
    (coreTail arena func bIs i base2 A2 f e).funcops =
      (coreTail arena func bIs i base1 A1 f e).funcops ∧
    (coreTail arena func bIs i base2 A2 f e).vars =
      (coreTail arena func bIs i base1 A1 f e).vars ∧
    (coreTail arena func bIs i base2 A2 f e).ignore =
      (coreTail arena func bIs i base1 A1 f e).ignore ∧
    (coreTail arena func bIs i base2 A2 f e).crashed =
      (coreTail arena func bIs i base1 A1 f e).crashed ∧
    (coreTail arena func bIs i base2 A2 f e).elided = base2.elided ∧
    (coreTail arena func bIs i base1 A1 f e).ann.args = A1.args ∧
    (coreTail arena func bIs i base2 A2 f e).ann.args = A2.args ∧
    (coreTail arena func bIs i base2 A2 f e).ann.ia e = A2.ia e ∧
    (coreTail arena func bIs i base2 A2 f e).ann.cx e =
      (coreTail arena func bIs i base1 A1 f e).ann.cx e := by
  have hgeneric : ∀ (u : PassState),
      u.elided ≤ (if (instrAt arena e).opcode = SPVOp.OpFunctionCall then
        (List.range (u.ann.args e).length).foldl
          (fun s a => callElideArg arena func bIs i s e a) u else u).elided := by
    intro u
    split
    · exact callFold_elided_mono arena func bIs i e _ u
    · exact le_refl _
  have hd0 : (loadElide arena func A1 f base1.vars e).2.2.2 = 0 := by
    have h2 : base1.elided + (loadElide arena func A1 f base1.vars e).2.2.2 ≤
        (coreTail arena func bIs i base1 A1 f e).elided :=
      hgeneric
        { base1 with
          ann := (adjacentMerge arena (loadElide arena func A1 f base1.vars e).1
            (loadElide arena func A1 f base1.vars e).2.1 e).1
          funcops := (adjacentMerge arena (loadElide arena func A1 f base1.vars e).1
            (loadElide arena func A1 f base1.vars e).2.1 e).2
          vars := (loadElide arena func A1 f base1.vars e).2.2.1
          elided := base1.elided + (loadElide arena func A1 f base1.vars e).2.2.2 }
    omega
  have hle1 := loadElide_noelide arena func A1 f base1.vars e hd0
  have hle2 := loadElide_noelide arena func A2 f base1.vars e
    ((loadElide_delta_congr arena func A1 A2 f base1.vars e hA2args).trans hd0)
  unfold coreTail at hiaabs hel1 ⊢
  rw [hbva]
  rw [hle1] at hiaabs hel1 ⊢
  rw [hle2]
  dsimp only at hiaabs hel1 ⊢
  simp only [Nat.add_zero] at hiaabs hel1 ⊢
  by_cases hoc : ((instrAt arena e).opcode = SPVOp.OpStore ∨
      (instrAt arena e).opcode = SPVOp.OpCompositeInsert) ∧ f.length > 1
  · by_cases hmt : (A1.args e).getD 1 0 = f.getD (f.length - 2) 0
    · have hmt2 : (A2.args e).getD 1 0 = f.getD (f.length - 2) 0 := by
        rw [hA2args]; exact hmt
      cases hop1 : (instrAt arena ((A1.args e).getD 1 0)).op with
      | some o1 =>
        have ham1 : adjacentMerge arena A1 f e =
            ((A1.setCx e (max (A1.cx e) (A1.cx ((A1.args e).getD 1 0)))).orIa e 2,
             f.erase ((A1.args e).getD 1 0)) := by
          unfold adjacentMerge
          rw [if_pos hoc, if_pos hmt]
          simp only [hop1]
        have ham2 : adjacentMerge arena A2 f e =
            ((A2.setCx e (max (A1.cx e) (A1.cx ((A1.args e).getD 1 0)))).orIa e 2,
             f.erase ((A1.args e).getD 1 0)) := by
          unfold adjacentMerge
          rw [if_pos hoc, if_pos hmt2]
          rw [hA2args]
          simp only [hop1, hAcxe, hAcxarg]
        rw [ham1] at hiaabs hel1 ⊢
        rw [ham2]
        dsimp only at hiaabs hel1 ⊢
        obtain ⟨cfo, cva, cig, ccr, cel, cann1, cann2⟩ :=
          callStage_congr arena func bIs i e
            { base1 with
              ann := (A1.setCx e (max (A1.cx e)
                (A1.cx ((A1.args e).getD 1 0)))).orIa e 2
              funcops := f.erase ((A1.args e).getD 1 0) }
            { base2 with
              ann := (A2.setCx e (max (A1.cx e)
                (A1.cx ((A1.args e).getD 1 0)))).orIa e 2
              funcops := f.erase ((A1.args e).getD 1 0)
              vars := base1.vars }
            rfl rfl hbig hbcr
            (by simp only [orIa_args, setCx_args]; exact hA2args) hel1
        have h1 : A2.ia e = A1.ia e ||| 2 :=
          hiaabs.trans ((congrArg (fun a => a.ia e) cann1).trans
            (by simp [orIa_ia_self, setCx_ia]))
        refine ⟨cfo, cva, cig, ccr, cel, ?_, ?_, ?_, ?_⟩
        · exact (congrArg Ann.args cann1).trans (by simp [orIa_args, setCx_args])
        · exact (congrArg Ann.args cann2).trans (by simp [orIa_args, setCx_args])
        · refine (congrArg (fun a => a.ia e) cann2).trans ?_
          simp only [orIa_ia_self, setCx_ia]
          rw [h1, Nat.or_assoc, Nat.or_self]
        · refine (congrArg (fun a => a.cx e) cann2).trans
            (Eq.trans ?_ (congrArg (fun a => a.cx e) cann1).symm)
          simp [orIa_cx, setCx_cx_self]
      | none =>
        have ham1 : adjacentMerge arena A1 f e =
            (A1.orIa e 2, f.erase ((A1.args e).getD 1 0)) := by
          unfold adjacentMerge
          rw [if_pos hoc, if_pos hmt]
          simp only [hop1]
        have ham2 : adjacentMerge arena A2 f e =
            (A2.orIa e 2, f.erase ((A1.args e).getD 1 0)) := by
          unfold adjacentMerge
          rw [if_pos hoc, if_pos hmt2]
          rw [hA2args]
          simp only [hop1]
        rw [ham1] at hiaabs hel1 ⊢
        rw [ham2]
        dsimp only at hiaabs hel1 ⊢
        obtain ⟨cfo, cva, cig, ccr, cel, cann1, cann2⟩ :=
          callStage_congr arena func bIs i e
            { base1 with
              ann := A1.orIa e 2
              funcops := f.erase ((A1.args e).getD 1 0) }
            { base2 with
              ann := A2.orIa e 2
              funcops := f.erase ((A1.args e).getD 1 0)
              vars := base1.vars }
            rfl rfl hbig hbcr
            (by simp only [orIa_args]; exact hA2args) hel1
        have h1 : A2.ia e = A1.ia e ||| 2 :=
          hiaabs.trans ((congrArg (fun a => a.ia e) cann1).trans
            (by simp [orIa_ia_self]))
        refine ⟨cfo, cva, cig, ccr, cel, ?_, ?_, ?_, ?_⟩
        · exact (congrArg Ann.args cann1).trans (by simp [orIa_args, setCx_args])
        · exact (congrArg Ann.args cann2).trans (by simp [orIa_args, setCx_args])
        · refine (congrArg (fun a => a.ia e) cann2).trans ?_
          simp only [orIa_ia_self]
          rw [h1, Nat.or_assoc, Nat.or_self]
        · refine (congrArg (fun a => a.cx e) cann2).trans
            (Eq.trans ?_ (congrArg (fun a => a.cx e) cann1).symm)
          simp [orIa_cx, hAcxe]
    · have hmt2 : ¬ (A2.args e).getD 1 0 = f.getD (f.length - 2) 0 := by
        rw [hA2args]; exact hmt
      have ham1 : adjacentMerge arena A1 f e = (A1, f) := by
        unfold adjacentMerge
        rw [if_pos hoc, if_neg hmt]
      have ham2 : adjacentMerge arena A2 f e = (A2, f) := by
        unfold adjacentMerge
        rw [if_pos hoc, if_neg hmt2]
      rw [ham1] at hiaabs hel1 ⊢
      rw [ham2]
      dsimp only at hiaabs hel1 ⊢
      obtain ⟨cfo, cva, cig, ccr, cel, cann1, cann2⟩ :=
        callStage_congr arena func bIs i e
          { base1 with
            ann := A1
            funcops := f }
          { base2 with
            ann := A2
            funcops := f
            vars := base1.vars }
          rfl rfl hbig hbcr hA2args hel1
      refine ⟨cfo, cva, cig, ccr, cel, ?_, ?_, ?_, ?_⟩
      · exact (congrArg Ann.args cann1).trans (by simp [orIa_args, setCx_args])
      · exact (congrArg Ann.args cann2).trans (by simp [orIa_args, setCx_args])
      · exact congrArg (fun a => a.ia e) cann2
      · refine (congrArg (fun a => a.cx e) cann2).trans
          (Eq.trans ?_ (congrArg (fun a => a.cx e) cann1).symm)
        exact hAcxe
  · have ham1 : adjacentMerge arena A1 f e = (A1, f) := by
      unfold adjacentMerge
      rw [if_neg hoc]
    have ham2 : adjacentMerge arena A2 f e = (A2, f) := by
      unfold adjacentMerge
      rw [if_neg hoc]
    rw [ham1] at hiaabs hel1 ⊢
    rw [ham2]
    dsimp only at hiaabs hel1 ⊢
    obtain ⟨cfo, cva, cig, ccr, cel, cann1, cann2⟩ :=
      callStage_congr arena func bIs i e
        { base1 with ann := A1, funcops := f }
        { base2 with ann := A2, funcops := f, vars := base1.vars }
        rfl rfl hbig hbcr hA2args hel1
    refine ⟨cfo, cva, cig, ccr, cel, ?_, ?_, ?_, ?_⟩
    · exact (congrArg Ann.args cann1).trans (by simp [orIa_args, setCx_args])
    · exact (congrArg Ann.args cann2).trans (by simp [orIa_args, setCx_args])
    · exact congrArg (fun a => a.ia e) cann2
    · refine (congrArg (fun a => a.cx e) cann2).trans
        (Eq.trans ?_ (congrArg (fun a => a.cx e) cann1).symm)
      exact hAcxe

/-- One instruction of the second run, against the first run's final state:
same emit list, variables, ignore list and crash behaviour, no elision, no
argument rewrite, `inlineArgs` already saturated, complexity recomputed
equal. -/
theorem procInstrCore_congr (arena : Arena) (func : FunctionS) (bIs : List Nat)
    (i : Nat) (t1 t2 : PassState) (e : Nat)
    (hdec : ∀ aa ∈ t1.ann.args e, aa < e)
    (hnoCI : (instrAt arena e).opcode ≠ SPVOp.OpCompositeInsert)
    (hfo : t2.funcops = t1.funcops) (hva : t2.vars = t1.vars)
    (hign : t2.ignore = t1.ignore) (hcrs : t2.crashed = t1.crashed)
    (hargs : t2.ann.args = t1.ann.args)
    (hcxlt : ∀ r, r < e → t2.ann.cx r = t1.ann.cx r)
    (hcxe0 : (instrAt arena e).op = none → t2.ann.cx e = t1.ann.cx e)
    (hiae : t2.ann.ia e = (procInstrCore arena func bIs i t1 e).ann.ia e)
    (hel : (procInstrCore arena func bIs i t1 e).elided = t1.elided) :
    (procInstrCore arena func bIs i t2 e).funcops =
      (procInstrCore arena func bIs i t1 e).funcops ∧
    (procInstrCore arena func bIs i t2 e).vars =
      (procInstrCore arena func bIs i t1 e).vars ∧
    (procInstrCore arena func bIs i t2 e).ignore =
      (procInstrCore arena func bIs i t1 e).ignore ∧
    (procInstrCore arena func bIs i t2 e).crashed =
      (procInstrCore arena func bIs i t1 e).crashed ∧
    (procInstrCore arena func bIs i t2 e).elided = t2.elided ∧
    (procInstrCore arena func bIs i t1 e).ann.args = t1.ann.args ∧
    (procInstrCore arena func bIs i t2 e).ann.args = t2.ann.args ∧
    (∀ r, (procInstrCore arena func bIs i t2 e).ann.ia r = t2.ann.ia r) ∧
    (procInstrCore arena func bIs i t2 e).ann.cx e =
      (procInstrCore arena func bIs i t1 e).ann.cx e := by
  unfold procInstrCore at hiae hel ⊢
  cases hop : (instrAt arena e).op with
  | none =>
    exact ⟨hfo, hva, hign, hcrs, rfl, rfl, rfl, fun r => rfl, hcxe0 hop⟩
  | some op0 =>
    simp only [hop] at hiae hel ⊢
    obtain ⟨M, f2, c2, HL1, HL2⟩ := argLoop_congr arena func t1.ann t2.ann
      t1.funcops e hargs (fun r hm => hcxlt r (hdec r hm))
    rw [hfo]
    rw [HL1] at hiae hel ⊢
    rw [HL2]
    dsimp only at hiae hel ⊢
    simp only [setCx_ia, orIa_ia_self, setCx_cx_self] at hiae hel ⊢
    set B1 := (t1.ann.orIa e M).setCx e c2 with hB1
    set B2 := (t2.ann.orIa e M).setCx e c2 with hB2
    set A1 := (if (instrAt arena e).opcode ≠ SPVOp.OpStore ∧
        (instrAt arena e).opcode ≠ SPVOp.OpLoad ∧
        (instrAt arena e).opcode ≠ SPVOp.OpCompositeExtract ∧
        t1.ann.ia e ||| M ≠ 0 then B1.setCx e (c2 + 1) else B1) with hA1
    set A2 := (if (instrAt arena e).opcode ≠ SPVOp.OpStore ∧
        (instrAt arena e).opcode ≠ SPVOp.OpLoad ∧
        (instrAt arena e).opcode ≠ SPVOp.OpCompositeExtract ∧
        t2.ann.ia e ||| M ≠ 0 then B2.setCx e (c2 + 1) else B2) with hA2
    have hA1args : A1.args = t1.ann.args := by
      rw [hA1]; split <;> simp [hB1, setCx_args, orIa_args]
    have hA2args : A2.args = t2.ann.args := by
      rw [hA2]; split <;> simp [hB2, setCx_args, orIa_args]
    have hA1iae : A1.ia e = t1.ann.ia e ||| M := by
      rw [hA1]; split <;> simp [hB1, setCx_ia, orIa_ia_self]
    have hA2iae : A2.ia e = t2.ann.ia e ||| M := by
      rw [hA2]; split <;> simp [hB2, setCx_ia, orIa_ia_self]
    have hA2iane : ∀ r, r ≠ e → A2.ia r = t2.ann.ia r := by
      intro r hr
      rw [hA2]; split <;> simp [hB2, setCx_ia, orIa_ia_ne _ _ _ _ hr]
    have hA1cxne : ∀ r, r ≠ e → A1.cx r = t1.ann.cx r := by
      intro r hr
      rw [hA1]; split <;> simp [hB1, setCx_cx_ne _ _ _ _ hr, orIa_cx]
    have hA2cxne : ∀ r, r ≠ e → A2.cx r = t2.ann.cx r := by
      intro r hr
      rw [hA2]; split <;> simp [hB2, setCx_cx_ne _ _ _ _ hr, orIa_cx]
    have hkey := coreTail_ia_e arena func bIs i t1 A1 f2 e
    have hA2iaval : A2.ia e = (coreTail arena func bIs i t1 A1 f2 e).ann.ia e := by
      rcases hkey with hk | ⟨hk, hops⟩
      · rw [hk, hA2iae, hiae, hk, hA1iae]
        exact or_or_self _ _
      · rw [hk, hA2iae, hiae, hk, hA1iae]
        exact or_or_absorb' _ _ _
    have hAcxe : A2.cx e = A1.cx e := by
      rw [hA1, hA2]
      by_cases hD : (instrAt arena e).opcode ≠ SPVOp.OpStore ∧
          (instrAt arena e).opcode ≠ SPVOp.OpLoad ∧
          (instrAt arena e).opcode ≠ SPVOp.OpCompositeExtract ∧
          t1.ann.ia e ||| M ≠ 0
      · have hD2 : (instrAt arena e).opcode ≠ SPVOp.OpStore ∧
            (instrAt arena e).opcode ≠ SPVOp.OpLoad ∧
            (instrAt arena e).opcode ≠ SPVOp.OpCompositeExtract ∧
            t2.ann.ia e ||| M ≠ 0 := by
          refine ⟨hD.1, hD.2.1, hD.2.2.1, ?_⟩
          rcases hkey with hk | ⟨hk, hops⟩
          · rw [hiae, hk, hA1iae, or_or_self]
            exact hD.2.2.2
          · rcases hops with hst | hci
            · exact absurd hst hD.1
            · exact absurd hci hnoCI
        rw [if_pos hD2, if_pos hD]
        simp [hB1, hB2, setCx_cx_self]
      · have hD2 : ¬ ((instrAt arena e).opcode ≠ SPVOp.OpStore ∧
            (instrAt arena e).opcode ≠ SPVOp.OpLoad ∧
            (instrAt arena e).opcode ≠ SPVOp.OpCompositeExtract ∧
            t2.ann.ia e ||| M ≠ 0) := by
          intro hc
          apply hD
          refine ⟨hc.1, hc.2.1, hc.2.2.1, ?_⟩
          rcases hkey with hk | ⟨hk, hops⟩
          · have h3 := hc.2.2.2
            rw [hiae, hk, hA1iae, or_or_self] at h3
            exact h3
          · rcases hops with hst | hci
            · exact absurd hst hc.1
            · exact absurd hci hnoCI
        rw [if_neg hD2, if_neg hD]
        simp [hB1, hB2, setCx_cx_self]
    have hAcxarg : A2.cx ((A1.args e).getD 1 0) = A1.cx ((A1.args e).getD 1 0) := by
      rw [hA1args]
      by_cases hre : (t1.ann.args e).getD 1 0 = e
      · rw [hre]; exact hAcxe
      · rw [hA1cxne _ hre, hA2cxne _ hre]
        have hlt : (t1.ann.args e).getD 1 0 < e := by
          by_cases hlen : 1 < (t1.ann.args e).length
          · exact hdec _ (by
              rw [List.getD_eq_getElem _ _ hlen]
              exact List.getElem_mem _)
          · have h0 : (t1.ann.args e).getD 1 0 = 0 :=
              List.getD_eq_default _ _ (by omega)
            rcases Nat.eq_zero_or_pos e with he0 | hepos
            · exact absurd (by rw [h0, he0]) hre
            · rw [h0]; exact hepos
        exact hcxlt _ hlt
    obtain ⟨cfo, cva, cig, ccr, cel, ca1, ca2, ciae, ccxe⟩ :=
      coreTail_congr arena func bIs i t1 t2 A1 A2 f2 e hfo hva hign hcrs
        (hA2args.trans (hargs.trans hA1args.symm)) hAcxe hAcxarg hA2iaval hel
    refine ⟨cfo, cva, cig, ccr, cel, ?_, ?_, ?_, ccxe⟩
    · exact ca1.trans hA1args
    · exact ca2.trans hA2args
    · intro r
      by_cases hre : r = e
      · subst hre
        rw [ciae, hA2iae]
        rcases hkey with hk | ⟨hk, hops⟩
        · rw [hiae, hk, hA1iae]
          exact or_or_self _ _
        · rw [hiae, hk, hA1iae]
          exact or_or_absorb' _ _ _
      · rw [(coreTail_frame arena func bIs i t2 A2 f2 e r hre).2.1]
        exact hA2iane r hre

/-- `procInstrCore_congr`, lifted over the emit-list push. -/
theorem procInstr_congr (arena : Arena) (func : FunctionS) (bIs : List Nat)
    (i : Nat) (s1 s2 : PassState) (e : Nat) (he : bIs.getD i 0 = e)
    (hdec : ∀ aa ∈ s1.ann.args e, aa < e)
    (hnoCI : (instrAt arena e).opcode ≠ SPVOp.OpCompositeInsert)
    (hfo : s2.funcops = s1.funcops) (hva : s2.vars = s1.vars)
    (hign : s2.ignore = s1.ignore) (hcrs : s2.crashed = s1.crashed)
    (hargs : s2.ann.args = s1.ann.args)
    (hcxlt : ∀ r, r < e → s2.ann.cx r = s1.ann.cx r)
    (hcxe0 : (instrAt arena e).op = none → s2.ann.cx e = s1.ann.cx e)
    (hiae : s2.ann.ia e = (procInstr arena func bIs i s1).ann.ia e)
    (hel : (procInstr arena func bIs i s1).elided = s1.elided) :
    (procInstr arena func bIs i s2).funcops =
      (procInstr arena func bIs i s1).funcops ∧
    (procInstr arena func bIs i s2).vars =
      (procInstr arena func bIs i s1).vars ∧
    (procInstr arena func bIs i s2).ignore =
      (procInstr arena func bIs i s1).ignore ∧
    (procInstr arena func bIs i s2).crashed =
      (procInstr arena func bIs i s1).crashed ∧
    (procInstr arena func bIs i s2).elided = s2.elided ∧
    (procInstr arena func bIs i s1).ann.args = s1.ann.args ∧
    (procInstr arena func bIs i s2).ann.args = s2.ann.args ∧
    (∀ r, (procInstr arena func bIs i s2).ann.ia r = s2.ann.ia r) ∧
    (procInstr arena func bIs i s2).ann.cx e =
      (procInstr arena func bIs i s1).ann.cx e := by
  unfold procInstr at hiae hel ⊢
  dsimp only at hiae hel ⊢
  rw [he] at hiae hel ⊢
  by_cases hig : s1.ignore.contains e = true
  · have hig2 : s2.ignore.contains e = true := by rw [hign]; exact hig
    rw [if_pos hig] at hiae hel ⊢
    rw [if_pos hig2]
    exact procInstrCore_congr arena func bIs i s1 s2 e hdec hnoCI hfo hva hign
      hcrs hargs hcxlt hcxe0 hiae hel
  · have hig2 : ¬ s2.ignore.contains e = true := by rw [hign]; exact hig
    rw [if_neg hig] at hiae hel ⊢
    rw [if_neg hig2]
    exact procInstrCore_congr arena func bIs i
      { s1 with funcops := s1.funcops ++ [e] }
      { s2 with funcops := s2.funcops ++ [e] } e hdec hnoCI (by simp [hfo])
      hva hign hcrs hargs hcxlt hcxe0 hiae hel

/-- An instruction without operation payload changes no annotations. -/
theorem procInstr_none_ann (arena : Arena) (func : FunctionS) (bIs : List Nat)
    (i : Nat) (s : PassState)
    (hop : (instrAt arena (bIs.getD i 0)).op = none) :
    (procInstr arena func bIs i s).ann = s.ann := by
  unfold procInstr procInstrCore
  dsimp only
  simp only [hop]
  split <;> rfl

/-- The instruction fold writes annotations only at the processed
instructions. -/
theorem procFold_frame (arena : Arena) (func : FunctionS) (bIs : List Nat)
    (L : List Nat) :
    ∀ (s : PassState) (r : Nat), (∀ j ∈ L, r ≠ bIs.getD j 0) →
    (L.foldl (fun s i => procInstr arena func bIs i s) s).ann.cx r = s.ann.cx r ∧
    (L.foldl (fun s i => procInstr arena func bIs i s) s).ann.ia r = s.ann.ia r ∧
    (L.foldl (fun s i => procInstr arena func bIs i s) s).ann.args r = s.ann.args r := by
  induction L with
  | nil => intro s r hj; exact ⟨rfl, rfl, rfl⟩
  | cons j L ih =>
    intro s r hj
    simp only [List.foldl_cons]
    obtain ⟨h1, h2, h3⟩ := ih (procInstr arena func bIs j s) r
      (fun j' hm => hj j' (List.mem_cons_of_mem _ hm))
    obtain ⟨g1, g2, g3⟩ := procInstr_frame arena func bIs j s r
      (hj j (List.mem_cons_self _ _))
    exact ⟨h1.trans g1, h2.trans g2, h3.trans g3⟩

/-- The instruction fold never decreases `elided`. -/
theorem procFold_elided_mono (arena : Arena) (func : FunctionS)
    (bIs : List Nat) (L : List Nat) :
    ∀ (s : PassState),
    s.elided ≤ (L.foldl (fun s i => procInstr arena func bIs i s) s).elided := by
  induction L with
  | nil => intro s; exact le_refl _
  | cons j L ih =>
    intro s
    simp only [List.foldl_cons]
    exact le_trans (procInstr_elided_mono arena func bIs j s) (ih _)

/-- The instruction fold of the second run, against the first run's final
state: same effect on everything, no elisions, annotations reproduced. -/
theorem procFold_congr (arena : Arena) (func : FunctionS) (bIs : List Nat) :
    ∀ (J : List Nat) (s1 s2 : PassState),
    List.Pairwise (· < ·) (J.map fun j => bIs.getD j 0) →
    (∀ j ∈ J, (instrAt arena (bIs.getD j 0)).opcode ≠ SPVOp.OpCompositeInsert) →
    (∀ j ∈ J, ∀ aa ∈ s1.ann.args (bIs.getD j 0), aa < bIs.getD j 0) →
    s2.funcops = s1.funcops → s2.vars = s1.vars → s2.ignore = s1.ignore →
    s2.crashed = s1.crashed → s2.ann.args = s1.ann.args →
    (∀ r, r ∈ (J.map fun j => bIs.getD j 0) →
      s2.ann.cx r =
        (J.foldl (fun s i => procInstr arena func bIs i s) s1).ann.cx r) →
    (∀ r, r ∈ (J.map fun j => bIs.getD j 0) →
      s2.ann.ia r =
        (J.foldl (fun s i => procInstr arena func bIs i s) s1).ann.ia r) →
    (∀ r, r ∉ (J.map fun j => bIs.getD j 0) →
      (∃ x ∈ (J.map fun j => bIs.getD j 0), r < x) →
      s2.ann.cx r = s1.ann.cx r) →
    (J.foldl (fun s i => procInstr arena func bIs i s) s1).elided = s1.elided →
    (J.foldl (fun s i => procInstr arena func bIs i s) s2).funcops =
      (J.foldl (fun s i => procInstr arena func bIs i s) s1).funcops ∧
    (J.foldl (fun s i => procInstr arena func bIs i s) s2).vars =
      (J.foldl (fun s i => procInstr arena func bIs i s) s1).vars ∧
    (J.foldl (fun s i => procInstr arena func bIs i s) s2).ignore =
      (J.foldl (fun s i => procInstr arena func bIs i s) s1).ignore ∧
    (J.foldl (fun s i => procInstr arena func bIs i s) s2).crashed =
      (J.foldl (fun s i => procInstr arena func bIs i s) s1).crashed ∧
    (J.foldl (fun s i => procInstr arena func bIs i s) s2).elided = s2.elided ∧
    (J.foldl (fun s i => procInstr arena func bIs i s) s1).ann.args =
      s1.ann.args ∧
    (J.foldl (fun s i => procInstr arena func bIs i s) s2).ann.args =
      s2.ann.args ∧
    (∀ r, (J.foldl (fun s i => procInstr arena func bIs i s) s2).ann.ia r =
      s2.ann.ia r) ∧
    (∀ r, r ∉ (J.map fun j => bIs.getD j 0) →
      (J.foldl (fun s i => procInstr arena func bIs i s) s2).ann.cx r =
        s2.ann.cx r) ∧
    (∀ r, r ∈ (J.map fun j => bIs.getD j 0) →
      (J.foldl (fun s i => procInstr arena func bIs i s) s2).ann.cx r =
        (J.foldl (fun s i => procInstr arena func bIs i s) s1).ann.cx r) := by
  intro J
  induction J with
  | nil =>
    intro s1 s2 _ _ _ hfo hva hign hcrs hargs _ _ _ _
    exact ⟨hfo, hva, hign, hcrs, rfl, rfl, rfl, fun r => rfl,
      fun r _ => rfl, fun r hr => absurd hr (by simp)⟩
  | cons j J ih =>
    intro s1 s2 hsort hnoCI hdec hfo hva hign hcrs hargs hsp hia hlow hel
    simp only [List.map_cons, List.pairwise_cons] at hsort
    simp only [List.foldl_cons, List.map_cons] at hel hsp hia hlow ⊢
    -- the head instruction
    have hheadlt : ∀ x ∈ J.map fun j' => bIs.getD j' 0, bIs.getD j 0 < x :=
      hsort.1
    have hheadne : ∀ j' ∈ J, bIs.getD j 0 ≠ bIs.getD j' 0 := by
      intro j' hm
      exact Nat.ne_of_lt (hheadlt _ (List.mem_map_of_mem _ hm))
    -- no elision in the head step
    have helstep : (procInstr arena func bIs j s1).elided = s1.elided := by
      have h1 := procInstr_elided_mono arena func bIs j s1
      have h2 := procFold_elided_mono arena func bIs J
        (procInstr arena func bIs j s1)
      omega
    -- the second run's ia at the head equals the first run's step output
    have hiaestep : s2.ann.ia (bIs.getD j 0) =
        (procInstr arena func bIs j s1).ann.ia (bIs.getD j 0) := by
      rw [hia (bIs.getD j 0) (List.mem_cons_self _ _)]
      exact (procFold_frame arena func bIs J (procInstr arena func bIs j s1)
        (bIs.getD j 0) hheadne).2.1
    -- complexities below the head agree
    have hcxltstep : ∀ r, r < bIs.getD j 0 → s2.ann.cx r = s1.ann.cx r := by
      intro r hr
      refine hlow r ?_ ⟨bIs.getD j 0, List.mem_cons_self _ _, hr⟩
      intro hmem
      rcases List.mem_cons.mp hmem with h | h
      · omega
      · exact absurd hr (by have := hheadlt r h; omega)
    -- if the head has no payload, its complexity also agrees
    have hcxe0step : (instrAt arena (bIs.getD j 0)).op = none →
        s2.ann.cx (bIs.getD j 0) = s1.ann.cx (bIs.getD j 0) := by
      intro hop
      rw [hsp (bIs.getD j 0) (List.mem_cons_self _ _)]
      rw [(procFold_frame arena func bIs J (procInstr arena func bIs j s1)
        (bIs.getD j 0) hheadne).1]
      rw [procInstr_none_ann arena func bIs j s1 hop]
    obtain ⟨c1, c2, c3, c4, c5, c6, c7, c8, c9⟩ :=
      procInstr_congr arena func bIs j s1 s2 (bIs.getD j 0) rfl
        (hdec j (List.mem_cons_self _ _)) (hnoCI j (List.mem_cons_self _ _))
        hfo hva hign hcrs hargs hcxltstep hcxe0step hiaestep helstep
    -- run-1 step frame
    have hfr1 := fun r hr => procInstr_frame arena func bIs j s1 r hr
    have hfr2 := fun r hr => procInstr_frame arena func bIs j s2 r hr
    obtain ⟨d1, d2, d3, d4, d5, d6, d7, d8, d9, d10⟩ :=
      ih (procInstr arena func bIs j s1) (procInstr arena func bIs j s2)
        hsort.2 (fun j' hm => hnoCI j' (List.mem_cons_of_mem _ hm))
        (by
          intro j' hm aa haa
          refine hdec j' (List.mem_cons_of_mem _ hm) aa ?_
          rwa [c6] at haa)
        c1 c2 c3 c4 (c7.trans (hargs.trans c6.symm))
        (by
          intro r hm
          have hre : r ≠ bIs.getD j 0 :=
            Nat.ne_of_gt (hheadlt r hm)
          rw [(hfr2 r hre).1, hsp r (List.mem_cons_of_mem _ hm)])
        (by
          intro r hm
          rw [c8 r, hia r (List.mem_cons_of_mem _ hm)])
        (by
          intro r hrn hex
          by_cases hre : r = bIs.getD j 0
          · subst hre
            exact c9
          · obtain ⟨x, hx, hrx⟩ := hex
            rw [(hfr2 r hre).1, (hfr1 r hre).1]
            refine hlow r ?_ ⟨x, List.mem_cons_of_mem _ hx, hrx⟩
            intro hmem
            rcases List.mem_cons.mp hmem with h | h
            · exact hre h
            · exact hrn h)
        (hel.trans helstep.symm)
    have hheadnotJ : bIs.getD j 0 ∉ (J.map fun j' => bIs.getD j' 0) := by
      intro hm
      exact absurd (hheadlt _ hm) (lt_irrefl _)
    refine ⟨d1, d2, d3, d4, d5.trans c5, d6.trans c6, d7.trans c7,
      (fun r => (d8 r).trans (c8 r)), ?_, ?_⟩
    · intro r hrn
      have hre : r ≠ bIs.getD j 0 := fun h => hrn (by rw [h]; exact List.mem_cons_self _ _)
      have hrnJ : r ∉ (J.map fun j' => bIs.getD j' 0) :=
        fun h => hrn (List.mem_cons_of_mem _ h)
      exact (d9 r hrnJ).trans (hfr2 r hre).1
    · intro r hrm
      rcases List.mem_cons.mp hrm with h | h
      · subst h
        refine ((d9 _ hheadnotJ).trans c9).trans ?_
        exact ((procFold_frame arena func bIs J (procInstr arena func bIs j s1)
          _ hheadne).1).symm
      · exact d10 r h

/-- Indexing a list by `getD` over its range reproduces the list. -/
theorem map_getD_range (l : List Nat) :
    (List.range l.length).map (fun j => l.getD j 0) = l := by
  apply List.ext_getElem
  · simp
  · intro i h1 h2
    rw [List.getElem_map, List.getElem_range]
    exact (List.getD_eq_getElem l 0 h2).symm ▸ rfl

/-- Processing a block never decreases `elided`. -/
theorem procBlock_elided_mono (arena : Arena) (func : FunctionS)
    (st0 : PassState) (b : Nat) (blk : BlockS) :
    st0.elided ≤ (procBlock arena func st0 b blk).elided := by
  unfold procBlock
  dsimp only
  refine le_trans ?_ (procFold_elided_mono arena func blk.instructions _ _)
  split <;> simp

/-- Processing a block writes annotations only at its instructions. -/
theorem procBlock_frame (arena : Arena) (func : FunctionS) (st0 : PassState)
    (b : Nat) (blk : BlockS) (r : Nat) (hr : r ∉ blk.instructions) :
    (procBlock arena func st0 b blk).ann.cx r = st0.ann.cx r ∧
    (procBlock arena func st0 b blk).ann.ia r = st0.ann.ia r ∧
    (procBlock arena func st0 b blk).ann.args r = st0.ann.args r := by
  have hne : ∀ j ∈ List.range blk.instructions.length,
      r ≠ blk.instructions.getD j 0 := by
    intro j hj heq
    apply hr
    rw [heq, List.getD_eq_getElem _ _ (List.mem_range.mp hj)]
    exact List.getElem_mem _
  unfold procBlock
  dsimp only
  obtain ⟨h1, h2, h3⟩ := procFold_frame arena func blk.instructions
    (List.range blk.instructions.length)
    (if b > 0 then
      { st0 with
        ignore := ([] : List Nat)
        funcops := st0.funcops ++ [blk.label] }
      else { st0 with ignore := ([] : List Nat) }) r hne
  constructor
  · refine Eq.trans ?_ (h1.trans ?_)
    · rfl
    · split <;> rfl
  constructor
  · refine Eq.trans ?_ (h2.trans ?_)
    · rfl
    · split <;> rfl
  · refine Eq.trans ?_ (h3.trans ?_)
    · rfl
    · split <;> rfl

/-- One block of the second run, against the first run's final state. -/
theorem procBlock_congr (arena : Arena) (func : FunctionS) (b : Nat)
    (blk : BlockS) (s1 s2 : PassState)
    (hsort : List.Pairwise (· < ·) blk.instructions)
    (hnoCI : ∀ x ∈ blk.instructions,
      (instrAt arena x).opcode ≠ SPVOp.OpCompositeInsert)
    (hdec : ∀ x ∈ blk.instructions, ∀ aa ∈ s1.ann.args x, aa < x)
    (hfo : s2.funcops = s1.funcops) (hva : s2.vars = s1.vars)
    (hcrs : s2.crashed = s1.crashed)
    (hargs : s2.ann.args = s1.ann.args)
    (hsp : ∀ r ∈ blk.instructions,
      s2.ann.cx r = (procBlock arena func s1 b blk).ann.cx r)
    (hia : ∀ r ∈ blk.instructions,
      s2.ann.ia r = (procBlock arena func s1 b blk).ann.ia r)
    (hlow : ∀ r ∉ blk.instructions,
      (∃ x ∈ blk.instructions, r < x) → s2.ann.cx r = s1.ann.cx r)
    (hel : (procBlock arena func s1 b blk).elided = s1.elided) :
    (procBlock arena func s2 b blk).funcops =
      (procBlock arena func s1 b blk).funcops ∧
    (procBlock arena func s2 b blk).vars =
      (procBlock arena func s1 b blk).vars ∧
    (procBlock arena func s2 b blk).ignore =
      (procBlock arena func s1 b blk).ignore ∧
    (procBlock arena func s2 b blk).crashed =
      (procBlock arena func s1 b blk).crashed ∧
    (procBlock arena func s2 b blk).elided = s2.elided ∧
    (procBlock arena func s1 b blk).ann.args = s1.ann.args ∧
    (procBlock arena func s2 b blk).ann.args = s2.ann.args ∧
    (∀ r, (procBlock arena func s2 b blk).ann.ia r = s2.ann.ia r) ∧
    (∀ r, r ∉ blk.instructions →
      (procBlock arena func s2 b blk).ann.cx r = s2.ann.cx r) ∧
    (∀ r, r ∈ blk.instructions →
      (procBlock arena func s2 b blk).ann.cx r =
        (procBlock arena func s1 b blk).ann.cx r) := by
  have hmem : ∀ j ∈ List.range blk.instructions.length,
      blk.instructions.getD j 0 ∈ blk.instructions := by
    intro j hj
    rw [List.getD_eq_getElem _ _ (List.mem_range.mp hj)]
    exact List.getElem_mem _
  unfold procBlock at hsp hia hel ⊢
  dsimp only at hsp hia hel ⊢
  by_cases hb : b > 0
  · simp only [if_pos hb] at hsp hia hel ⊢
    obtain ⟨d1, d2, d3, d4, d5, d6, d7, d8, d9, d10⟩ :=
      procFold_congr arena func blk.instructions
        (List.range blk.instructions.length)
        { s1 with
          ignore := ([] : List Nat)
          funcops := s1.funcops ++ [blk.label] }
        { s2 with
          ignore := ([] : List Nat)
          funcops := s2.funcops ++ [blk.label] }
        (by rw [map_getD_range]; exact hsort)
        (fun j hj => hnoCI _ (hmem j hj))
        (fun j hj => hdec _ (hmem j hj))
        (by simp [hfo]) hva rfl hcrs hargs
        (by rw [map_getD_range]; exact hsp)
        (by rw [map_getD_range]; exact hia)
        (by rw [map_getD_range]; exact hlow)
        hel
    refine ⟨congrArg (blockPost arena blk) d1, d2, d3, d4, d5, d6, d7, d8,
      ?_, ?_⟩
    · intro r hr
      exact d9 r (by rw [map_getD_range]; exact hr)
    · intro r hr
      exact d10 r (by rw [map_getD_range]; exact hr)
  · simp only [if_neg hb] at hsp hia hel ⊢
    obtain ⟨d1, d2, d3, d4, d5, d6, d7, d8, d9, d10⟩ :=
      procFold_congr arena func blk.instructions
        (List.range blk.instructions.length)
        { s1 with ignore := ([] : List Nat) }
        { s2 with ignore := ([] : List Nat) }
        (by rw [map_getD_range]; exact hsort)
        (fun j hj => hnoCI _ (hmem j hj))
        (fun j hj => hdec _ (hmem j hj))
        hfo hva rfl hcrs hargs
        (by rw [map_getD_range]; exact hsp)
        (by rw [map_getD_range]; exact hia)
        (by rw [map_getD_range]; exact hlow)
        hel
    refine ⟨congrArg (blockPost arena blk) d1, d2, d3, d4, d5, d6, d7, d8,
      ?_, ?_⟩
    · intro r hr
      exact d9 r (by rw [map_getD_range]; exact hr)
    · intro r hr
      exact d10 r (by rw [map_getD_range]; exact hr)

/-- The block fold never decreases `elided`. -/
theorem blocksFold_elided_mono (arena : Arena) (func : FunctionS)
    (bs : List (Nat × BlockS)) :
    ∀ (s : PassState),
    s.elided ≤ (bs.foldl (fun st p => procBlock arena func st p.1 p.2) s).elided := by
  induction bs with
  | nil => intro s; exact le_refl _
  | cons p bs ih =>
    intro s
    simp only [List.foldl_cons]
    exact le_trans (procBlock_elided_mono arena func s p.1 p.2) (ih _)

/-- The block fold writes annotations only at its blocks' instructions. -/
theorem blocksFold_frame (arena : Arena) (func : FunctionS)
    (bs : List (Nat × BlockS)) :
    ∀ (s : PassState) (r : Nat),
    r ∉ (bs.map fun p => p.2.instructions).flatten →
    ((bs.foldl (fun st p => procBlock arena func st p.1 p.2) s).ann.cx r =
      s.ann.cx r ∧
    (bs.foldl (fun st p => procBlock arena func st p.1 p.2) s).ann.ia r =
      s.ann.ia r ∧
    (bs.foldl (fun st p => procBlock arena func st p.1 p.2) s).ann.args r =
      s.ann.args r) := by
  induction bs with
  | nil => intro s r hr; exact ⟨rfl, rfl, rfl⟩
  | cons p bs ih =>
    intro s r hr
    simp only [List.map_cons, List.flatten_cons, List.mem_append] at hr
    push_neg at hr
    simp only [List.foldl_cons]
    obtain ⟨h1, h2, h3⟩ := ih (procBlock arena func s p.1 p.2) r (by
      intro hm
      exact hr.2 hm)
    obtain ⟨g1, g2, g3⟩ := procBlock_frame arena func s p.1 p.2 r hr.1
    exact ⟨h1.trans g1, h2.trans g2, h3.trans g3⟩

/-- The block fold of the second run, against the first run's final
state. -/
theorem blocksFold_congr (arena : Arena) (func : FunctionS) :
    ∀ (bs : List (Nat × BlockS)) (s1 s2 : PassState),
    List.Pairwise (· < ·) ((bs.map fun p => p.2.instructions).flatten) →
    (∀ x ∈ (bs.map fun p => p.2.instructions).flatten,
      (instrAt arena x).opcode ≠ SPVOp.OpCompositeInsert) →
    (∀ x ∈ (bs.map fun p => p.2.instructions).flatten,
      ∀ aa ∈ s1.ann.args x, aa < x) →
    s2.funcops = s1.funcops → s2.vars = s1.vars → s2.ignore = s1.ignore →
    s2.crashed = s1.crashed → s2.ann.args = s1.ann.args →
    (∀ r ∈ (bs.map fun p => p.2.instructions).flatten,
      s2.ann.cx r =
        (bs.foldl (fun st p => procBlock arena func st p.1 p.2) s1).ann.cx r) →
    (∀ r ∈ (bs.map fun p => p.2.instructions).flatten,
      s2.ann.ia r =
        (bs.foldl (fun st p => procBlock arena func st p.1 p.2) s1).ann.ia r) →
    (∀ r ∉ (bs.map fun p => p.2.instructions).flatten,
      (∃ x ∈ (bs.map fun p => p.2.instructions).flatten, r < x) →
      s2.ann.cx r = s1.ann.cx r) →
    (bs.foldl (fun st p => procBlock arena func st p.1 p.2) s1).elided =
      s1.elided →
    (bs.foldl (fun st p => procBlock arena func st p.1 p.2) s2).funcops =
      (bs.foldl (fun st p => procBlock arena func st p.1 p.2) s1).funcops ∧
    (bs.foldl (fun st p => procBlock arena func st p.1 p.2) s2).vars =
      (bs.foldl (fun st p => procBlock arena func st p.1 p.2) s1).vars ∧
    (bs.foldl (fun st p => procBlock arena func st p.1 p.2) s2).ignore =
      (bs.foldl (fun st p => procBlock arena func st p.1 p.2) s1).ignore ∧
    (bs.foldl (fun st p => procBlock arena func st p.1 p.2) s2).crashed =
      (bs.foldl (fun st p => procBlock arena func st p.1 p.2) s1).crashed ∧
    (bs.foldl (fun st p => procBlock arena func st p.1 p.2) s2).elided =
      s2.elided ∧
    (bs.foldl (fun st p => procBlock arena func st p.1 p.2) s1).ann.args =
      s1.ann.args ∧
    (bs.foldl (fun st p => procBlock arena func st p.1 p.2) s2).ann.args =
      s2.ann.args ∧
    (∀ r, (bs.foldl (fun st p => procBlock arena func st p.1 p.2) s2).ann.ia r =
      s2.ann.ia r) ∧
    (∀ r, r ∉ (bs.map fun p => p.2.instructions).flatten →
      (bs.foldl (fun st p => procBlock arena func st p.1 p.2) s2).ann.cx r =
        s2.ann.cx r) ∧
    (∀ r, r ∈ (bs.map fun p => p.2.instructions).flatten →
      (bs.foldl (fun st p => procBlock arena func st p.1 p.2) s2).ann.cx r =
        (bs.foldl (fun st p => procBlock arena func st p.1 p.2) s1).ann.cx r) := by
  intro bs
  induction bs with
  | nil =>
    intro s1 s2 _ _ _ hfo hva hign hcrs hargs _ _ _ _
    exact ⟨hfo, hva, hign, hcrs, rfl, rfl, rfl, fun r => rfl,
      fun r _ => rfl, fun r hr => absurd hr (by simp)⟩
  | cons p bs ih =>
    intro s1 s2 hsort hnoCI hdec hfo hva hign hcrs hargs hsp hia hlow hel
    simp only [List.map_cons, List.flatten_cons] at hsort hnoCI hdec hsp hia hlow ⊢
    simp only [List.foldl_cons] at hel hsp hia ⊢
    rw [List.pairwise_append] at hsort
    -- no elision in the head block
    have helstep : (procBlock arena func s1 p.1 p.2).elided = s1.elided := by
      have h1 := procBlock_elided_mono arena func s1 p.1 p.2
      have h2 := blocksFold_elided_mono arena func bs
        (procBlock arena func s1 p.1 p.2)
      omega
    -- the rest of run 1 does not touch the head block's instructions
    have hrest : ∀ r ∈ p.2.instructions,
        r ∉ (bs.map fun q => q.2.instructions).flatten := by
      intro r hr hm
      exact absurd (hsort.2.2 r hr r hm) (lt_irrefl r)
    obtain ⟨c1, c2, c3, c4, c5, c6, c7, c8, c9, c10⟩ :=
      procBlock_congr arena func p.1 p.2 s1 s2 hsort.1
        (fun x hx => hnoCI x (List.mem_append_left _ hx))
        (fun x hx => hdec x (List.mem_append_left _ hx))
        hfo hva hcrs hargs
        (by
          intro r hr
          rw [hsp r (List.mem_append_left _ hr)]
          exact (blocksFold_frame arena func bs
            (procBlock arena func s1 p.1 p.2) r (hrest r hr)).1)
        (by
          intro r hr
          rw [hia r (List.mem_append_left _ hr)]
          exact (blocksFold_frame arena func bs
            (procBlock arena func s1 p.1 p.2) r (hrest r hr)).2.1)
        (by
          intro r hrn hex
          obtain ⟨x, hx, hrx⟩ := hex
          refine hlow r ?_ ⟨x, List.mem_append_left _ hx, hrx⟩
          intro hm
          rcases List.mem_append.mp hm with h | h
          · exact hrn h
          · exact absurd hrx (by have := hsort.2.2 x hx r h; omega))
        helstep
    have hnotblk : ∀ r ∈ (bs.map fun q => q.2.instructions).flatten,
        r ∉ p.2.instructions := by
      intro r hr hm
      exact absurd (hsort.2.2 r hm r hr) (lt_irrefl r)
    obtain ⟨d1, d2, d3, d4, d5, d6, d7, d8, d9, d10⟩ :=
      ih (procBlock arena func s1 p.1 p.2) (procBlock arena func s2 p.1 p.2)
        hsort.2.1
        (fun x hx => hnoCI x (List.mem_append_right _ hx))
        (by
          intro x hx aa haa
          refine hdec x (List.mem_append_right _ hx) aa ?_
          rwa [c6] at haa)
        c1 c2 c3 c4 (c7.trans (hargs.trans c6.symm))
        (by
          intro r hr
          rw [c9 r (hnotblk r hr), hsp r (List.mem_append_right _ hr)])
        (by
          intro r hr
          rw [c8 r, hia r (List.mem_append_right _ hr)])
        (by
          intro r hrn hex
          by_cases hrb : r ∈ p.2.instructions
          · exact c10 r hrb
          · obtain ⟨x, hx, hrx⟩ := hex
            rw [c9 r hrb]
            rw [(procBlock_frame arena func s1 p.1 p.2 r hrb).1]
            refine hlow r ?_ ⟨x, List.mem_append_right _ hx, hrx⟩
            intro hm
            rcases List.mem_append.mp hm with h | h
            · exact hrb h
            · exact hrn h)
        (hel.trans helstep.symm)
    refine ⟨d1, d2, d3, d4, d5.trans c5, d6.trans c6, d7.trans c7,
      (fun r => (d8 r).trans (c8 r)), ?_, ?_⟩
    · intro r hrn
      rw [List.mem_append] at hrn
      push_neg at hrn
      exact (d9 r hrn.2).trans (c9 r hrn.1)
    · intro r hrm
      rcases List.mem_append.mp hrm with h | h
      · refine ((d9 r (fun hm => (hnotblk r hm) h)).trans (c10 r h)).trans ?_
        exact ((blocksFold_frame arena func bs
          (procBlock arena func s1 p.1 p.2) r
          (fun hm => (hnotblk r hm) h)).1).symm
      · exact d10 r h

/-- A call-argument step that does not elide keeps the annotations. -/
theorem callElideArg_pres (arena : Arena) (func : FunctionS) (bIs : List Nat)
    (i : Nat) (st : PassState) (e a : Nat)
    (h : (callElideArg arena func bIs i st e a).elided = st.elided) :
    (callElideArg arena func bIs i st e a).ann = st.ann := by
  rcases callElideArg_congr arena func bIs i st st e a rfl h with ⟨H, _⟩ | ⟨H, _⟩ <;>
    rw [H]

/-- An elision-free instruction tail does not rewrite arguments. -/
theorem coreTail_args_pres (arena : Arena) (func : FunctionS) (bIs : List Nat)
    (i : Nat) (base : PassState) (A : Ann) (f : List Nat) (e : Nat)
    (h : (coreTail arena func bIs i base A f e).elided = base.elided) :
    (coreTail arena func bIs i base A f e).ann.args = A.args := by
  have hgeneric : ∀ (u : PassState),
      u.elided ≤ (if (instrAt arena e).opcode = SPVOp.OpFunctionCall then
        (List.range (u.ann.args e).length).foldl
          (fun s a => callElideArg arena func bIs i s e a) u else u).elided := by
    intro u
    split
    · exact callFold_elided_mono arena func bIs i e _ u
    · exact le_refl _
  have hd0 : (loadElide arena func A f base.vars e).2.2.2 = 0 := by
    have h2 : base.elided + (loadElide arena func A f base.vars e).2.2.2 ≤
        (coreTail arena func bIs i base A f e).elided :=
      hgeneric
        { base with
          ann := (adjacentMerge arena (loadElide arena func A f base.vars e).1
            (loadElide arena func A f base.vars e).2.1 e).1
          funcops := (adjacentMerge arena (loadElide arena func A f base.vars e).1
            (loadElide arena func A f base.vars e).2.1 e).2
          vars := (loadElide arena func A f base.vars e).2.2.1
          elided := base.elided + (loadElide arena func A f base.vars e).2.2.2 }
    omega
  have hle := loadElide_noelide arena func A f base.vars e hd0
  unfold coreTail at h ⊢
  rw [hle] at h ⊢
  dsimp only at h ⊢
  simp only [Nat.add_zero] at h ⊢
  obtain ⟨_, _, _, _, _, cann1, _⟩ :=
    callStage_congr arena func bIs i e
      { base with
        ann := (adjacentMerge arena A f e).1
        funcops := (adjacentMerge arena A f e).2 }
      { base with
        ann := (adjacentMerge arena A f e).1
        funcops := (adjacentMerge arena A f e).2 }
      rfl rfl rfl rfl rfl h
  exact (congrArg Ann.args cann1).trans (adjacentMerge_args arena A f e)

/-- An elision-free instruction core does not rewrite arguments. -/
theorem procInstrCore_args_pres (arena : Arena) (func : FunctionS)
    (bIs : List Nat) (i : Nat) (st : PassState) (e : Nat)
    (h : (procInstrCore arena func bIs i st e).elided = st.elided) :
    (procInstrCore arena func bIs i st e).ann.args = st.ann.args := by
  unfold procInstrCore at h ⊢
  cases hop : (instrAt arena e).op with
  | none => rfl
  | some op0 =>
    simp only [hop] at h ⊢
    refine (coreTail_args_pres arena func bIs i st _ _ e h).trans ?_
    split <;> simp [setCx_args, orIa_args, argLoop_args]

/-- An elision-free instruction does not rewrite arguments. -/
theorem procInstr_args_pres (arena : Arena) (func : FunctionS)
    (bIs : List Nat) (i : Nat) (st : PassState)
    (h : (procInstr arena func bIs i st).elided = st.elided) :
    (procInstr arena func bIs i st).ann.args = st.ann.args := by
  unfold procInstr at h ⊢
  dsimp only at h ⊢
  by_cases hig : st.ignore.contains (bIs.getD i 0) = true
  · rw [if_pos hig] at h ⊢
    exact procInstrCore_args_pres arena func bIs i st (bIs.getD i 0) h
  · rw [if_neg hig] at h ⊢
    exact procInstrCore_args_pres arena func bIs i
      { st with funcops := st.funcops ++ [bIs.getD i 0] } (bIs.getD i 0) h

/-- An elision-free instruction fold does not rewrite arguments. -/
theorem procFold_args_pres (arena : Arena) (func : FunctionS) (bIs : List Nat)
    (L : List Nat) :
    ∀ (s : PassState),
    (L.foldl (fun s i => procInstr arena func bIs i s) s).elided = s.elided →
    (L.foldl (fun s i => procInstr arena func bIs i s) s).ann.args =
      s.ann.args := by
  induction L with
  | nil => intro s _; rfl
  | cons j L ih =>
    intro s h
    simp only [List.foldl_cons] at h ⊢
    have hstep : (procInstr arena func bIs j s).elided = s.elided := by
      have h1 := procInstr_elided_mono arena func bIs j s
      have h2 := procFold_elided_mono arena func bIs L
        (procInstr arena func bIs j s)
      omega
    exact (ih _ (h.trans hstep.symm)).trans (procInstr_args_pres arena func bIs j s hstep)

/-- An elision-free block does not rewrite arguments. -/
theorem procBlock_args_pres (arena : Arena) (func : FunctionS)
    (st0 : PassState) (b : Nat) (blk : BlockS)
    (h : (procBlock arena func st0 b blk).elided = st0.elided) :
    (procBlock arena func st0 b blk).ann.args = st0.ann.args := by
  unfold procBlock at h ⊢
  dsimp only at h ⊢
  by_cases hb : b > 0
  · rw [if_pos hb] at h ⊢
    exact procFold_args_pres arena func blk.instructions _
      { st0 with
        ignore := ([] : List Nat)
        funcops := st0.funcops ++ [blk.label] } h
  · rw [if_neg hb] at h ⊢
    exact procFold_args_pres arena func blk.instructions _
      { st0 with ignore := ([] : List Nat) } h

/-- An elision-free block fold does not rewrite arguments. -/
theorem blocksFold_args_pres (arena : Arena) (func : FunctionS)
    (bs : List (Nat × BlockS)) :
    ∀ (s : PassState),
    (bs.foldl (fun st p => procBlock arena func st p.1 p.2) s).elided =
      s.elided →
    (bs.foldl (fun st p => procBlock arena func st p.1 p.2) s).ann.args =
      s.ann.args := by
  induction bs with
  | nil => intro s _; rfl
  | cons p bs ih =>
    intro s h
    simp only [List.foldl_cons] at h ⊢
    have hstep : (procBlock arena func s p.1 p.2).elided = s.elided := by
      have h1 := procBlock_elided_mono arena func s p.1 p.2
      have h2 := blocksFold_elided_mono arena func bs
        (procBlock arena func s p.1 p.2)
      omega
    exact (ih _ (h.trans hstep.symm)).trans
      (procBlock_args_pres arena func s p.1 p.2 hstep)

/-- Equality of annotation records from equality of the three fields. -/
theorem annExt (a b : Ann) (h1 : a.cx = b.cx) (h2 : a.ia = b.ia)
    (h3 : a.args = b.args) : a = b := by
  cases a
  cases b
  simp_all

/-- The per-block instruction lists of the enumerated fold flatten to the
linear block order. -/
theorem enum_flatten_linear (func : FunctionS) :
    ((func.blocks.enum.map fun p => p.2.instructions).flatten) =
      funcLinear func := by
  unfold funcLinear
  congr 1
  show func.blocks.enum.map ((fun b => b.instructions) ∘ Prod.snd) = _
  rw [← List.map_map, List.enum_map_snd]

/-- **C9 (amended).** The inliner is idempotent on a function whose first
run neither elides an instruction nor crashes, that holds no
`OpCompositeInsert`, whose linear order is strictly ascending, and whose
operands precede their instruction: a second run from the first run's
annotations emits the same instruction list, leaves the same variable
list, elides nothing, does not crash, and leaves every annotation
unchanged. -/
theorem c9_inliner_idempotent (arena : Arena) (func : FunctionS) (ann0 : Ann)
    (hdec : ∀ x ∈ funcLinear func, ∀ aa ∈ ann0.args x, aa < x)
    (hsort : List.Pairwise (· < ·) (funcLinear func))
    (hnoCI : ∀ x ∈ funcLinear func,
      (instrAt arena x).opcode ≠ SPVOp.OpCompositeInsert)
    (hel : (runInliner arena func ann0).elided = 0)
    (hcr : (runInliner arena func ann0).crashed = false) :
    (runInliner arena func (runInliner arena func ann0).ann).funcops =
      (runInliner arena func ann0).funcops ∧
    (runInliner arena func (runInliner arena func ann0).ann).vars =
      (runInliner arena func ann0).vars ∧
    (runInliner arena func (runInliner arena func ann0).ann).elided = 0 ∧
    (runInliner arena func (runInliner arena func ann0).ann).crashed = false ∧
    (runInliner arena func (runInliner arena func ann0).ann).ann =
      (runInliner arena func ann0).ann := by
  have hbridge : ((func.blocks.enum.map fun p => p.2.instructions).flatten) =
      funcLinear func := enum_flatten_linear func
  rw [← hbridge] at hdec hsort hnoCI
  have hargsPres : (runInliner arena func ann0).ann.args =
      (initState func ann0).ann.args :=
    blocksFold_args_pres arena func func.blocks.enum (initState func ann0) hel
  obtain ⟨c1, c2, c3, c4, c5, c6, c7, c8, c9, c10⟩ :=
    blocksFold_congr arena func func.blocks.enum (initState func ann0)
      (initState func (runInliner arena func ann0).ann)
      hsort hnoCI hdec rfl rfl rfl rfl hargsPres
      (fun r _ => rfl) (fun r _ => rfl)
      (fun r hr _ => (blocksFold_frame arena func func.blocks.enum
        (initState func ann0) r hr).1)
      hel
  refine ⟨c1, c2, c5, c4.trans hcr, ?_⟩
  refine annExt _ _ ?_ ?_ c7
  · funext r
    by_cases hr : r ∈ (func.blocks.enum.map fun p => p.2.instructions).flatten
    · exact c10 r hr
    · exact c9 r hr
  · funext r
    exact c8 r

/-- An elision-free function for the idempotence witness:
```
%t = OpLoad %v            ; arena 1
%x = OpIAdd %t, %t        ; arena 2
OpReturn                  ; arena 3
```
-/
def c9wArena : Arena :=
  [ { opcode := SPVOp.OpVariable, id := 100, isVar := true },
    { opcode := SPVOp.OpLoad, id := 101, op := some { arguments := [0] } },
    { opcode := SPVOp.OpOther 0, id := 102, op := some { arguments := [1, 1] } },
    { opcode := SPVOp.OpReturn } ]

def c9wFunc : FunctionS :=
  { blocks := [ { label := 9, instructions := [1, 2, 3], exitFlow := some 3 } ],
    localVars := [0] }

/-- Witness for C9 (amended) at the elision-free function above. -/
theorem c9_idempotent_witness :
    (runInliner c9wArena c9wFunc (initAnn c9wArena)).elided = 0 ∧
    ((runInliner c9wArena c9wFunc
        (runInliner c9wArena c9wFunc (initAnn c9wArena)).ann).funcops =
      (runInliner c9wArena c9wFunc (initAnn c9wArena)).funcops ∧
    (runInliner c9wArena c9wFunc
        (runInliner c9wArena c9wFunc (initAnn c9wArena)).ann).vars =
      (runInliner c9wArena c9wFunc (initAnn c9wArena)).vars ∧
    (runInliner c9wArena c9wFunc
        (runInliner c9wArena c9wFunc (initAnn c9wArena)).ann).elided = 0 ∧
    (runInliner c9wArena c9wFunc
        (runInliner c9wArena c9wFunc (initAnn c9wArena)).ann).crashed = false ∧
    (runInliner c9wArena c9wFunc
        (runInliner c9wArena c9wFunc (initAnn c9wArena)).ann).ann =
      (runInliner c9wArena c9wFunc (initAnn c9wArena)).ann) :=
  ⟨by decide,
   c9_inliner_idempotent c9wArena c9wFunc (initAnn c9wArena)
     (by decide) (by decide) (by decide) (by decide) (by decide)⟩

end SpirVDis
